import Mathlib

/-!
Verification development for the PSA alert-processing repository.

The definitions below are a shallow embedding of the alert-processing
orchestrator (`langgraph_workflow.py`), the hybrid retriever, the triage
response-sanitation protocol and fallback classifier (`app.py`), and the
predictive-stage filter.  Python floats are modelled as rationals (`ℚ`);
Python dictionaries produced by external reasoning calls are modelled as
structures with `Option` fields (a missing key is `none`, mirroring
`dict.get(key, default)`); calls to external collaborators (the reasoning
adapter, the vector store) are modelled as oracle parameters.
-/

namespace PSA

/-- A contact entry of the `_get_escalation_contact` table. -/
structure Contact where
  name : String
  email : String
  phone : String
deriving Repr, DecidableEq

/-- A per-module contact record (primary plus escalation contact). -/
structure ContactRecord where
  primary_contact : Contact
  escalation_contact : Contact
deriving Repr, DecidableEq

/-- The email dict built by `_generate_escalation_email` (the field
`«to»` is the dict's "to" key). -/
structure EmailContent where
  «to» : String
  subject : String
  body : String
deriving Repr, DecidableEq

/-- Embedding of the `PSAState` TypedDict of `langgraph_workflow.py`.
`confidence_score` is a Python float, modelled as `ℚ`; the per-stage raw
result dicts are carried as the structured results below.
`escalation_contact` and `email_content` start as the empty dict `{}` in
`process_alert`; reading a key of the empty dict raises `KeyError`, so
the empty dict is modelled as `none`. -/
structure WState where
  alert_text : String
  case_id : String
  timestamp : String
  severity : String
  urgency : String
  module : String
  entities : List String
  problem_statement : String
  root_cause : String
  confidence_score : ℚ
  best_sop : String
  resolution_summary : String
  predicted_impact : String
  historical_patterns : List String
  risk_assessment : String
  needs_human_review : Bool
  auto_escalate : Bool
  human_approved : Bool
  execution_path : List String
  escalation_contact : Option ContactRecord
  email_content : Option EmailContent
  final_recommendation : String
  status : String
  error_message : Option String
deriving Repr, DecidableEq

/-- Result dict produced by the triage analysis (LLM output or
`_fallback_triage`); `Option` fields mirror `dict.get` with defaults. -/
structure TriageResult where
  module : Option String
  entities : Option (List String)
  alert_type : Option String
  severity : Option String
  urgency : Option String
deriving Repr, DecidableEq

/-- Result dict produced by the diagnostic analysis. -/
structure DiagnosticResult where
  problem_statement : Option String
  reasoning : Option String
  confidence_score : Option ℚ
  best_sop_id : Option String
  resolution_summary : Option String
deriving Repr, DecidableEq

/-- Result dict produced by the predictive analysis. -/
structure PredictiveResult where
  predictive_insight : Option String
  patterns : Option (List String)
  risk_level : Option String
deriving Repr, DecidableEq

/-- Embedding of `_triage_node`: the triage analysis (the LLM call plus the
raw `json.loads`, or the fallback) either yields a result dict or
throws.  On success the node stores the result with the `dict.get`
defaults of the source and appends `"triage"`; on an exception the
`except` branch records the message and sets status `"error"`, leaving
every other field — including `execution_path` — untouched. -/
def triageNode (t : Except String TriageResult) (s : WState) : WState :=
  match t with
  | .error msg =>
    { s with
      error_message := some msg
      status := "error" }
  | .ok r =>
    { s with
      severity := r.severity.getD "medium"
      urgency := r.urgency.getD "medium"
      module := r.module.getD "Unknown"
      entities := r.entities.getD []
      execution_path := s.execution_path ++ ["triage"] }

/-- Embedding of `_diagnostic_node`: stores the diagnostic result (defaults per the
source: confidence `0.5`, sop `"None"`, …) and appends `"diagnostic"`. -/
def diagnosticNode (d : DiagnosticResult) (s : WState) : WState :=
  { s with
    problem_statement := d.problem_statement.getD "Unknown"
    root_cause := d.reasoning.getD "Unknown"
    confidence_score := d.confidence_score.getD (1/2)
    best_sop := d.best_sop_id.getD "None"
    resolution_summary := d.resolution_summary.getD "Manual review required"
    execution_path := s.execution_path ++ ["diagnostic"] }

/-- Embedding of `_predictive_node`: stores the predictive result (default risk
`"medium"`) and appends `"predictive"`. -/
def predictiveNode (p : PredictiveResult) (s : WState) : WState :=
  { s with
    predicted_impact := p.predictive_insight.getD "Unknown"
    historical_patterns := p.patterns.getD []
    risk_assessment := p.risk_level.getD "medium"
    execution_path := s.execution_path ++ ["predictive"] }

/-- The condition `severity in ["critical", "high"]` used throughout the
routing and review code. -/
def sevCritHigh (sev : String) : Bool :=
  sev = "critical" || sev = "high"

/-- Embedding of `_human_review_node`: the source simulates the human decision
synchronously from the state's severity and confidence
(`severity in ["critical","high"] and confidence > 0.7`), sets both
`human_approved` and `auto_escalate` accordingly, and appends
`"human_review"`. -/
def humanReviewNode (s : WState) : WState :=
  if sevCritHigh s.severity && decide (s.confidence_score > 7/10) then
    { s with
      human_approved := true
      auto_escalate := true
      execution_path := s.execution_path ++ ["human_review"] }
  else
    { s with
      human_approved := false
      auto_escalate := false
      execution_path := s.execution_path ++ ["human_review"] }

/-- Embedding of `_get_escalation_contact`: fixed contact table keyed by module,
defaulting to the CNTR record. -/
def getEscalationContact (module : String) : ContactRecord :=
  if module = "CNTR" then
    { primary_contact :=
        { name := "Container Support", email := "container@company.com"
          phone := "+1-555-CONTAINER" }
      escalation_contact :=
        { name := "Container Manager", email := "container-mgr@company.com"
          phone := "+1-555-CONTAINER-MGR" } }
  else if module = "VSL" then
    { primary_contact :=
        { name := "Vessel Support", email := "vessel@company.com"
          phone := "+1-555-VESSEL" }
      escalation_contact :=
        { name := "Vessel Manager", email := "vessel-mgr@company.com"
          phone := "+1-555-VESSEL-MGR" } }
  else if module = "EDI/API" then
    { primary_contact :=
        { name := "EDI Support", email := "edi@company.com", phone := "+1-555-EDI" }
      escalation_contact :=
        { name := "EDI Manager", email := "edi-mgr@company.com"
          phone := "+1-555-EDI-MGR" } }
  else
    { primary_contact :=
        { name := "Container Support", email := "container@company.com"
          phone := "+1-555-CONTAINER" }
      escalation_contact :=
        { name := "Container Manager", email := "container-mgr@company.com"
          phone := "+1-555-CONTAINER-MGR" } }

/-- ASCII upper-casing of a string, modelling Python `str.upper()` on the
severity words that occur here. -/
def upperStr (s : String) : String :=
  ⟨s.data.map Char.toUpper⟩

/-- Embedding of `_generate_escalation_email`: the `to` field reads
`state["escalation_contact"]["escalation_contact"]["email"]` from the
state *as it is*; when `escalation_contact` is still the initial empty
dict this lookup raises `KeyError` (modelled as `none`). -/
def generateEscalationEmail (s : WState) : Option EmailContent :=
  match s.escalation_contact with
  | none => none
  | some r =>
    some
      { «to» := r.escalation_contact.email
        subject :=
          "URGENT: " ++ upperStr s.severity ++ " Alert - " ++ s.module ++ " Module"
        body :=
          "AUTOMATED ALERT ANALYSIS Alert: " ++ s.alert_text
            ++ " Severity: " ++ s.severity ++ " Module: " ++ s.module
            ++ " Problem Statement: " ++ s.problem_statement
            ++ " Root Cause: " ++ s.root_cause
            ++ " Recommended SOP: " ++ s.best_sop
            ++ " Resolution: " ++ s.resolution_summary
            ++ " Predicted Impact: " ++ s.predicted_impact
            ++ " Please review and take appropriate action." }

/-- Embedding of `_escalation_node`: it looks up the contact, then calls
`_generate_escalation_email` *before* storing the contact into the
state.  The email rendering reads the state's `escalation_contact`,
which is still the initial empty dict, so it raises `KeyError`; the
`except` branch records the error and sets status `"error"`, and neither
the contact, nor the email, nor the `"escalation"` path entry is ever
assigned.  (The assignment branch is kept for faithfulness; it can run
only from a state whose `escalation_contact` is already populated, which
`process_alert` never produces.) -/
def escalationNode (s : WState) : WState :=
  match generateEscalationEmail s with
  | none =>
    { s with
      error_message := some "'escalation_contact'"
      status := "error" }
  | some email =>
    { s with
      escalation_contact := some (getEscalationContact s.module)
      email_content := some email
      execution_path := s.execution_path ++ ["escalation"] }

/-- Embedding of `_generate_final_recommendation`: the final free-text recommendation
(interpolation of state fields; the numeric rendering of the confidence
score is immaterial to every claim). -/
def generateFinalRecommendation (s : WState) : String :=
  "ALERT PROCESSING COMPLETE Status: " ++ s.status ++
  " Severity: " ++ s.severity ++
  " Recommended Action: " ++ s.best_sop ++
  " Resolution: " ++ s.resolution_summary ++
  " Next Steps: " ++
  (if s.auto_escalate then "Escalation sent" else "Awaiting human review")

/-- Embedding of `_finalize_node`: generates the recommendation, sets `status` to
`"completed"` and appends `"finalize"`. -/
def finalizeNode (s : WState) : WState :=
  { s with
    final_recommendation := generateFinalRecommendation s
    status := "completed"
    execution_path := s.execution_path ++ ["finalize"] }

/-- Embedding of `_route_after_triage`. -/
def routeAfterTriage (s : WState) : String :=
  if s.severity = "low" then "end"
  else if sevCritHigh s.severity then "diagnostic"
  else "human_review"

/-- Embedding of `_route_after_diagnostic`. -/
def routeAfterDiagnostic (s : WState) : String :=
  if s.confidence_score < 3/10 then "human_review"
  else if sevCritHigh s.severity && decide (s.confidence_score > 7/10) then "escalation"
  else "predictive"

/-- Embedding of `_route_after_predictive`. -/
def routeAfterPredictive (s : WState) : String :=
  if s.risk_assessment = "high" && sevCritHigh s.severity then "escalation"
  else "human_review"

/-- Embedding of `_route_after_human_review`. -/
def routeAfterHumanReview (s : WState) : String :=
  if s.human_approved then "escalation" else "finalize"

/-- The sub-graph starting at the `human_review` node: run the node, then
follow the conditional edges `escalation → finalize` or `finalize`
(the `"end"` edge of the map is never selected by the router). -/
def runFromHumanReview (s : WState) : WState :=
  let s' := humanReviewNode s
  if routeAfterHumanReview s' = "escalation" then finalizeNode (escalationNode s')
  else if routeAfterHumanReview s' = "finalize" then finalizeNode s'
  else s'

/-- One full execution of the compiled LangGraph workflow, starting at the
`triage` entry point and following the conditional-edge maps of
`_build_graph`.  The three stage results are oracle parameters standing
for the external reasoning calls (or their fallbacks); all routing and
state updates are the source's. -/
def runWorkflow (t : Except String TriageResult) (d : DiagnosticResult)
    (p : PredictiveResult) (s0 : WState) : WState :=
  let s1 := triageNode t s0
  if routeAfterTriage s1 = "end" then s1
  else if routeAfterTriage s1 = "diagnostic" then
    let s2 := diagnosticNode d s1
    if routeAfterDiagnostic s2 = "human_review" then runFromHumanReview s2
    else if routeAfterDiagnostic s2 = "escalation" then finalizeNode (escalationNode s2)
    else
      let s3 := predictiveNode p s2
      if routeAfterPredictive s3 = "escalation" then finalizeNode (escalationNode s3)
      else runFromHumanReview s3
  else runFromHumanReview s1

/-- The initial state built by `process_alert` (`status="processing"`,
`confidence_score=0.0`, empty `execution_path`). -/
def initialState (alert_text case_id timestamp : String) : WState :=
  { alert_text := alert_text
    case_id := case_id
    timestamp := timestamp
    severity := ""
    urgency := ""
    module := ""
    entities := []
    problem_statement := ""
    root_cause := ""
    confidence_score := 0
    best_sop := ""
    resolution_summary := ""
    predicted_impact := ""
    historical_patterns := []
    risk_assessment := ""
    needs_human_review := false
    auto_escalate := false
    human_approved := false
    execution_path := []
    escalation_contact := none
    email_content := none
    final_recommendation := ""
    status := "processing"
    error_message := none }

/-- The severity recorded by the triage stage (the `dict.get` default is
`"medium"`). -/
def recordedSeverity (t : TriageResult) : String := t.severity.getD "medium"

/-- The confidence recorded by the diagnostic stage. -/
def recordedConfidence (d : DiagnosticResult) : ℚ := d.confidence_score.getD (1/2)

/-- The risk recorded by the predictive stage. -/
def recordedRisk (p : PredictiveResult) : String := p.risk_level.getD "medium"

/-- The tail of the execution path from the human-review decision point,
per the rule table (§4.5 of the spec): approval sends the run through
escalation then finalize, otherwise straight to finalize.  `conf` is the
confidence score held by the state when human review runs. -/
def specHumanReviewTail (sev : String) (conf : ℚ) : List String :=
  if sevCritHigh sev && decide (conf > 7/10) then
    ["human_review", "escalation", "finalize"]
  else
    ["human_review", "finalize"]

/-- The execution path dictated by the routing rule table of §4.5,
as a function of the recorded severity, confidence and risk.  This is the
specification side of claim C2, written from the spec's rule table, with
the human-review approval supplied by the review rule on the state the
router actually sees (confidence `0` when human review is reached
directly after triage). -/
def specPath (sev : String) (conf : ℚ) (risk : String) : List String :=
  if sev = "low" then ["triage"]
  else if sevCritHigh sev then
    "triage" :: "diagnostic" ::
      (if conf < 3/10 then specHumanReviewTail sev conf
       else if sevCritHigh sev && decide (conf > 7/10) then ["escalation", "finalize"]
       else "predictive" ::
         (if risk = "high" && sevCritHigh sev then ["escalation", "finalize"]
          else specHumanReviewTail sev conf))
  else "triage" :: specHumanReviewTail sev 0

/-- Embedding of `process_alert`: build the initial state for the alert and run the
compiled graph, with the three stage analyses supplied as oracles. -/
def processAlert (t : Except String TriageResult) (d : DiagnosticResult)
    (p : PredictiveResult) (alert_text case_id timestamp : String) : WState :=
  runWorkflow t d p (initialState alert_text case_id timestamp)

/-! ### Hybrid retriever (`_retrieve_candidate_sops`) -/

/-- One hit of a ChromaDB query: the source carries parallel arrays
(`ids`, `documents`, `metadatas`, `distances`); here one record per hit. -/
structure RawDoc where
  id : String
  document : String
  metadata : List (String × String)
  distance : ℚ
deriving Repr, DecidableEq

/-- A `CandidateDocument` as built by `_retrieve_candidate_sops`
(`relevance_score = 1 - distance`). -/
structure CandidateDoc where
  id : String
  document : String
  metadata : List (String × String)
  distance : ℚ
  search_type : String
  relevance_score : ℚ
deriving Repr, DecidableEq

/-- The parameters of one `collection.query` call. -/
structure QuerySpec where
  text : String
  n_results : ℕ
  whereMeta : List (String × String)
  whereDoc : Option String
deriving Repr, DecidableEq

/-- The evidence-store oracle: a query either returns hits or throws
(modelled as `Except`). -/
def QueryFn : Type := QuerySpec → Except String (List RawDoc)

/-- The per-hit dict construction loops of `_retrieve_candidate_sops`. -/
def mkDocs (search_type : String) (rs : List RawDoc) : List CandidateDoc :=
  rs.map fun r =>
    { id := r.id
      document := r.document
      metadata := r.metadata
      distance := r.distance
      search_type := search_type
      relevance_score := 1 - r.distance }

/-- One pass of the combine/deduplicate loop: keep each doc whose id is
not in `seen`, adding kept ids to `seen` as the loop proceeds. -/
def dedupeSkip (seen : List String) : List CandidateDoc → List CandidateDoc
  | [] => []
  | d :: rest =>
    if d.id ∈ seen then dedupeSkip seen rest
    else d :: dedupeSkip (d.id :: seen) rest

/-- The contents of the `seen_ids` set after one pass of the loop. -/
def seenAfter (seen : List String) : List CandidateDoc → List String
  | [] => seen
  | d :: rest =>
    if d.id ∈ seen then seenAfter seen rest
    else seenAfter (d.id :: seen) rest

/-- Step 3 of the hybrid search: semantic results are inserted first,
then keyword results, skipping any id already seen. -/
def combineDedupe (sem kw : List CandidateDoc) : List CandidateDoc :=
  dedupeSkip [] sem ++ dedupeSkip (seenAfter [] sem) kw

/-- Stable insertion for descending relevance: an element moves past the
earlier ones only when its score is strictly larger (equal keys keep the
original order, as Python's stable sort does). -/
def insertByRelevance (d : CandidateDoc) : List CandidateDoc → List CandidateDoc
  | [] => [d]
  | e :: es =>
    if d.relevance_score < e.relevance_score then e :: insertByRelevance d es
    else d :: e :: es

/-- Embedding of `combined_sops.sort(key=lambda x: x['relevance_score'],
reverse=True)` — Python's sort is stable; this stable insertion sort is
its extensional equivalent. -/
def sortByRelevance : List CandidateDoc → List CandidateDoc
  | [] => []
  | d :: ds => insertByRelevance d (sortByRelevance ds)

/-- Embedding of `" ".join(entities)`. -/
def joinSpace : List String → String := String.intercalate " "

/-- Embedding of `_retrieve_candidate_sops`: hybrid search with missing-module guard,
keyword search with per-entity fallback, combine/dedupe/sort, and the
outer exception fallback (the semantic query is the fallible operation
the outer `try` guards; the keyword query has its own inner `try`).  A
plain similarity query with `n_results=3` is retried once before giving
up with `[]`. -/
def retrieveCandidateSops (hasCollection : String → Bool) (q : QueryFn)
    (alert_text module : String) (entities : List String) : List CandidateDoc :=
  if hasCollection module = false then []
  else
    match q { text := alert_text, n_results := 5,
              whereMeta := [("doc_type", "SOP")], whereDoc := none } with
    | .error _ =>
        match q { text := alert_text, n_results := 3,
                  whereMeta := [("doc_type", "SOP")], whereDoc := none } with
        | .ok rs => mkDocs "fallback" rs
        | .error _ => []
    | .ok semRaw =>
        let semanticSops := mkDocs "semantic" semRaw
        let keywordSops :=
          if entities.isEmpty then []
          else
            let kq := joinSpace entities
            match q { text := kq, n_results := 2,
                      whereMeta := [("doc_type", "SOP")], whereDoc := some kq } with
            | .ok krs => mkDocs "keyword" krs
            | .error _ =>
                entities.flatMap fun e =>
                  match q { text := e, n_results := 1,
                            whereMeta := [("doc_type", "SOP")], whereDoc := none } with
                  | .ok ers => mkDocs "keyword" ers
                  | .error _ => []
        sortByRelevance (combineDedupe semanticSops keywordSops)

/-! ### Shared string utilities for the `app.py` embeddings -/

/-- ASCII lower-casing (Python `str.lower()`; the keyword tables are all
ASCII). -/
def lowerStr (s : String) : String :=
  ⟨s.data.map Char.toLower⟩

/-- Python substring test `needle in hay`. -/
def pyContains (hay needle : String) : Bool :=
  decide (needle.data <:+: hay.data)

/-- Case-insensitive containment, as pandas `str.contains(case=False)`. -/
def pyContainsCI (hay needle : String) : Bool :=
  pyContains (lowerStr hay) (lowerStr needle)

/-- Python `s[:n]`. -/
def takeStr (n : ℕ) (s : String) : String :=
  ⟨s.data.take n⟩

/-! ### Fallback triage classifier (`app.py fallback_triage_agent`) -/

/-- Regex `\s` character class (`[ \t\n\r\f\v]`). -/
def isRegexSpace (c : Char) : Bool :=
  c = ' ' || c = '\t' || c = '\n' || c = '\r' || c = '\x0b' || c = '\x0c'

/-- Generic fuelled left-to-right scanner for `re.findall`: at each
position apply the matcher; on a hit emit the match and continue after
it, otherwise advance one character.  Every matcher below consumes at
least one character, so fuel `l.length` is always sufficient. -/
def scanWith (matchAt : List Char → Option (List Char × List Char)) :
    ℕ → List Char → List (List Char)
  | 0, _ => []
  | _ + 1, [] => []
  | fuel + 1, c :: rest =>
    match matchAt (c :: rest) with
    | some (m, rem) => m :: scanWith matchAt fuel rem
    | none => scanWith matchAt fuel rest

/-- Run a scanner over a string. -/
def reFindAll (matchAt : List Char → Option (List Char × List Char)) (s : String) :
    List String :=
  (scanWith matchAt s.data.length s.data).map fun cs => ⟨cs⟩

/-- Matcher for `[CM]MAU\d+|[CM]SCU\d+` at the current position (greedy
digits). -/
def matchContainerAt : List Char → Option (List Char × List Char)
  | a :: b :: c :: d :: rest =>
    if (a = 'C' || a = 'M')
        && ((b = 'M' && c = 'A' && d = 'U') || (b = 'S' && c = 'C' && d = 'U')) then
      let digits := rest.takeWhile Char.isDigit
      if digits.isEmpty then none
      else some ([a, b, c, d] ++ digits, rest.dropWhile Char.isDigit)
    else none
  | _ => none

/-- Matcher for `MV\s+[A-Z\s]+`: after `MV`, the greedy run of
upper-case/whitespace characters, requiring it to start with whitespace
and have length ≥ 2 (one `\s` plus one `[A-Z\s]`, after backtracking). -/
def matchVesselAt : List Char → Option (List Char × List Char)
  | 'M' :: 'V' :: rest =>
    let run := rest.takeWhile fun c => c.isUpper || isRegexSpace c
    match run with
    | r0 :: _ :: _ =>
      if isRegexSpace r0 then some ('M' :: 'V' :: run, rest.drop run.length)
      else none
    | _ => none
  | _ => none

/-- Matcher for `REF-[A-Z]+-\d+` (greedy letters, then a literal dash,
then greedy digits). -/
def matchMsgRefAt : List Char → Option (List Char × List Char)
  | 'R' :: 'E' :: 'F' :: '-' :: rest =>
    let letters := rest.takeWhile Char.isUpper
    if letters.isEmpty then none
    else
      match rest.drop letters.length with
      | '-' :: rest2 =>
        let digits := rest2.takeWhile Char.isDigit
        if digits.isEmpty then none
        else some (['R', 'E', 'F', '-'] ++ letters ++ '-' :: digits,
                   rest2.drop digits.length)
      | _ => none
  | _ => none

/-- Matcher for `[A-Z_]+_ERR_\d+`: the greedy `[A-Z_]` run must end in
`_ERR_` with at least one class character before it (backtracking inside
the run cannot place `_ERR_` anywhere but at its end, since a digit must
follow). -/
def matchErrCodeAt (l : List Char) : Option (List Char × List Char) :=
  let classCh := fun c => Char.isUpper c || c = '_'
  match l with
  | [] => none
  | c :: _ =>
    if classCh c then
      let run := l.takeWhile classCh
      let rest := l.drop run.length
      if decide (6 ≤ run.length) && decide (run.drop (run.length - 5) = ['_', 'E', 'R', 'R', '_']) then
        let digits := rest.takeWhile Char.isDigit
        if digits.isEmpty then none
        else some (run ++ digits, rest.drop digits.length)
      else none
    else none

/-- Embedding of `re.findall(r'[CM]MAU\d+|[CM]SCU\d+', alert_text)`. -/
def findContainerCodes (s : String) : List String := reFindAll matchContainerAt s

/-- Embedding of `re.findall(r'MV\s+[A-Z\s]+', alert_text)`. -/
def findVesselNames (s : String) : List String := reFindAll matchVesselAt s

/-- Embedding of `re.findall(r'REF-[A-Z]+-\d+', alert_text)`. -/
def findMessageRefs (s : String) : List String := reFindAll matchMsgRefAt s

/-- Embedding of `re.findall(r'[A-Z_]+_ERR_\d+', alert_text)`. -/
def findErrorCodes (s : String) : List String := reFindAll matchErrCodeAt s

/-- Container keyword table of `fallback_triage_agent`. -/
def containerKeywords : List String :=
  ["container", "cmau", "mscu", "cntr_no", "duplicate", "identical containers", "bay", "slots"]

/-- Vessel keyword table. -/
def vesselKeywords : List String :=
  ["vessel", "mv", "vessel advice", "vessel_err_4", "system vessel name", "baplie",
   "coarri", "terminal", "load completed"]

/-- EDI/messaging keyword table. -/
def ediKeywords : List String :=
  ["edi", "message", "ref-ift", "stuck in error", "acknowledgment", "ack_at is null",
   "correlation_id", "httpstatus"]

/-- Infrastructure keyword table. -/
def infraKeywords : List String :=
  ["database", "connection", "timeout", "service", "system", "infrastructure"]

/-- High-severity keyword ladder of the source. -/
def highSeverityKeywords : List String :=
  ["critical", "urgent", "immediate", "down", "failed", "error"]

/-- Medium-severity keyword ladder. -/
def mediumSeverityKeywords : List String := ["warning", "issue", "problem"]

/-- Low-severity keyword ladder of the source. -/
def lowSeverityKeywords : List String := ["info", "information", "notice"]

/-- The module decided by the elif chain of `fallback_triage_agent`. -/
def fallbackModule (textLower : String) : String :=
  if containerKeywords.any fun k => pyContains textLower k then "CNTR"
  else if vesselKeywords.any fun k => pyContains textLower k then "VSL"
  else if ediKeywords.any fun k => pyContains textLower k then "EDI/API"
  else if infraKeywords.any fun k => pyContains textLower k then "Infra/SRE"
  else "Unknown"

/-- The module-specific entity extraction of the same elif chain. -/
def fallbackModuleEntities (alert_text textLower : String) : List String :=
  if containerKeywords.any fun k => pyContains textLower k then findContainerCodes alert_text
  else if vesselKeywords.any fun k => pyContains textLower k then findVesselNames alert_text
  else if ediKeywords.any fun k => pyContains textLower k then findMessageRefs alert_text
  else []

/-- The severity/urgency ladder of `fallback_triage_agent` (every branch
assigns the same value to both). -/
def fallbackSeverity (textLower : String) : String :=
  if highSeverityKeywords.any fun k => pyContains textLower k then "high"
  else if mediumSeverityKeywords.any fun k => pyContains textLower k then "medium"
  else if lowSeverityKeywords.any fun k => pyContains textLower k then "low"
  else "medium"

/-- The result record of the fallback classifier. -/
structure FallbackTriage where
  module : String
  entities : List String
  alert_type : String
  severity : String
  urgency : String
deriving Repr, DecidableEq

/-- Embedding of `fallback_triage_agent`: keyword module table, pattern-based entity
extraction (error codes appended last), entities truncated to 5, and the
severity/urgency keyword ladder. -/
def fallback_triage_agent (alert_text : String) : FallbackTriage :=
  let textLower := lowerStr alert_text
  { module := fallbackModule textLower
    entities := (fallbackModuleEntities alert_text textLower ++ findErrorCodes alert_text).take 5
    alert_type :=
      if pyContains textLower "error" then "error"
      else if pyContains textLower "warning" then "warning"
      else "info"
    severity := fallbackSeverity textLower
    urgency := fallbackSeverity textLower }

/-- Modelled from the claim wording of C8 (spec §4.2): the claimed
high-severity list — `critical/urgent/down/failed/error` — without the
source's extra `immediate` keyword. -/
def claimHighKeywords : List String := ["critical", "urgent", "down", "failed", "error"]

/-- Modelled from the claim wording of C8: the claimed low list
`info/notice`. -/
def claimLowKeywords : List String := ["info", "notice"]

/-- The severity ladder exactly as the claim states it. -/
def claimSeverityLadder (textLower : String) : String :=
  if claimHighKeywords.any fun k => pyContains textLower k then "high"
  else if mediumSeverityKeywords.any fun k => pyContains textLower k then "medium"
  else if claimLowKeywords.any fun k => pyContains textLower k then "low"
  else "medium"

/-- The amended severity ladder: the high list additionally contains
`immediate` (the claimed low list is unchanged — the source's extra
`information` keyword is behaviourally redundant, since any text
containing `information` contains `info`). -/
def amendedSeverityLadder (textLower : String) : String :=
  if (claimHighKeywords ++ ["immediate"]).any fun k => pyContains textLower k then "high"
  else if mediumSeverityKeywords.any fun k => pyContains textLower k then "medium"
  else if claimLowKeywords.any fun k => pyContains textLower k then "low"
  else "medium"

/-- The module rule table as the claim states it (the claim names the
term categories; the keyword lists themselves are the source's). -/
def claimModuleTable (textLower : String) : String :=
  if containerKeywords.any fun k => pyContains textLower k then "CNTR"
  else if vesselKeywords.any fun k => pyContains textLower k then "VSL"
  else if ediKeywords.any fun k => pyContains textLower k then "EDI/API"
  else if infraKeywords.any fun k => pyContains textLower k then "Infra/SRE"
  else "Unknown"

/-! ### Predictive stage (`_analyze_historical_patterns`, `run_predictive_agent`) -/

/-- The dict returned by the orchestrator's predictive analysis. -/
structure LGPredictive where
  predictive_insight : String
  patterns : List String
  risk_level : String
deriving Repr, DecidableEq

/-- Embedding of `_fallback_predictive` (`risk_level = "medium"`). -/
def fallbackPredictive : LGPredictive :=
  { predictive_insight := "Historical analysis unavailable"
    patterns := []
    risk_level := "medium" }

/-- Count of a value in the row list (`value_counts`). -/
def countOccurrences (rows : List String) (v : String) : ℕ :=
  rows.countP fun r => r == v

/-- Stable descending insertion by occurrence count. -/
def insertByCount (rows : List String) (v : String) : List String → List String
  | [] => [v]
  | e :: es =>
    if countOccurrences rows v < countOccurrences rows e then e :: insertByCount rows v es
    else v :: e :: es

/-- Stable descending sort by occurrence count. -/
def sortByCount (rows : List String) : List String → List String
  | [] => []
  | v :: vs => insertByCount rows v (sortByCount rows vs)

/-- Distinct values in first-appearance order. -/
def uniqueKeepFirst : List String → List String
  | [] => []
  | v :: vs => v :: uniqueKeepFirst (vs.filter fun x => !(x == v))
termination_by l => l.length
decreasing_by
  simp only [List.length_cons]
  exact Nat.lt_succ_of_le (List.length_filter_le _ _)

/-- Embedding of `value_counts().head(3)`: the up to three most frequent problem
statements (pandas resolves ties by insertion order). -/
def topPatterns (rows : List String) : List String :=
  (sortByCount rows (uniqueKeepFirst rows)).take 3

/-- Embedding of `_analyze_historical_patterns`: `data` is the `'Problem Statement'`
column; the filter is pandas `str.contains(problem_statement[:50],
case=False, na=False)`; an empty corpus or an empty filter result falls
back to `_fallback_predictive`.  The resolution-time average and its
`{:.1f}` rendering depend on a spreadsheet column and float formatting
outside the core, so they enter as the oracles `avgResolution` and
`renderFloat`. -/
def analyzeHistoricalPatterns (renderFloat : ℚ → String)
    (avgResolution : List String → ℚ) (data : List String)
    (problem_statement : String) : LGPredictive :=
  if data.isEmpty then fallbackPredictive
  else
    let filtered := data.filter fun ps => pyContainsCI ps (takeStr 50 problem_statement)
    if filtered.isEmpty then fallbackPredictive
    else
      { predictive_insight :=
          "Based on " ++ toString filtered.length
            ++ " similar cases, expect resolution time of "
            ++ renderFloat (avgResolution filtered) ++ " hours"
        patterns := topPatterns filtered
        risk_level := if 5 < filtered.length then "high" else "medium" }

/-- The fixed incident-keyword list of `run_predictive_agent`. -/
def problemKeywords : List String :=
  ["error", "issue", "failed", "stuck", "duplicate", "timeout", "connection"]

/-- Embedding of `' '.join(str(val).lower() for val in row.values if pd.notna(val))` —
a row is modelled as the list of its non-null values rendered to
strings. -/
def rowText (row : List String) : String :=
  joinSpace (row.map lowerStr)

/-- The per-row relevance test of `run_predictive_agent`: some lowered
entity occurs in the row text, or some incident keyword occurs in both
the lowered problem statement and the row text. -/
def isRelevantRow (entitiesLower : List String) (problemLower : String)
    (row : List String) : Bool :=
  (entitiesLower.any fun e => pyContains (rowText row) e)
  || (problemKeywords.any fun k =>
        pyContains problemLower k && pyContains (rowText row) k)

/-- The pre-filtering loop of `run_predictive_agent` (truthy entities
lowered first). -/
def filterHistoricalCases (data : List (List String)) (problem_statement : String)
    (entities : List String) : List (List String) :=
  data.filter (isRelevantRow ((entities.filter fun e => !(e == "")).map lowerStr)
    (lowerStr problem_statement))

/-- The dict returned by `run_predictive_agent`'s early returns. -/
structure AppPredictive where
  predictive_insight : String
  confidence : String
deriving Repr, DecidableEq

/-- Embedding of `run_predictive_agent` up to its two early returns; the continuation
on a non-empty filter result (historical digest plus reasoning-adapter
call) is the oracle `rest`, an external collaborator per spec §6. -/
def runPredictiveAgent (rest : List (List String) → AppPredictive)
    (data : List (List String)) (problem_statement : String)
    (entities : List String) : AppPredictive :=
  if data.isEmpty then
    { predictive_insight := "No historical data available for prediction"
      confidence := "low" }
  else
    let filtered := filterHistoricalCases data problem_statement entities
    if filtered.isEmpty then
      { predictive_insight := "No similar historical cases found for prediction"
        confidence := "low" }
    else rest filtered

/-! ### Triage response sanitation (`app.py triage_agent`, lines 210–227) -/

/-- The backtick character (code point 96). -/
def tick : Char := Char.ofNat 96

/-- The fenced-code marker `(tick)(tick)(tick)json` removed first. -/
def fenceJson : List Char := tick :: tick :: tick :: 'j' :: 's' :: 'o' :: 'n' :: []

/-- The bare three-backtick fence marker removed second. -/
def fence : List Char := [tick, tick, tick]

/-- Python `str` ASCII whitespace, as used by `strip()` and `split()`. -/
def isPySpace (c : Char) : Bool :=
  c = ' ' || c = '\t' || c = '\n' || c = '\r' || c = '\x0b' || c = '\x0c'

/-- Embedding of `str.strip()`: drop leading and trailing whitespace. -/
def pyStrip (l : List Char) : List Char :=
  ((l.dropWhile isPySpace).reverse.dropWhile isPySpace).reverse

/-- Embedding of `str.replace(pat, '')`: remove every non-overlapping occurrence of
`pat`, scanning left to right (Python's `replace` semantics). -/
def removeAll (pat : List Char) : List Char → List Char
  | [] => []
  | c :: cs =>
    if pat ≠ [] ∧ pat <+: (c :: cs) then
      removeAll pat ((c :: cs).drop pat.length)
    else c :: removeAll pat cs
termination_by l => l.length
decreasing_by
  · rename_i h
    have h1 : 1 ≤ pat.length := by
      cases pat with
      | nil => exact absurd rfl h.1
      | cons x xs => simp
    simp only [List.length_drop, List.length_cons]
    omega
  · simp

/-- Embedding of `str.find(ch)`: index of the first occurrence, `none` for Python's
`-1`. -/
def pyFind (c : Char) : List Char → Option ℕ
  | [] => none
  | d :: ds => if d = c then some 0 else (pyFind c ds).map (· + 1)

/-- Embedding of `str.rfind(ch)`: index of the last occurrence. -/
def pyRFind (c : Char) (l : List Char) : Option ℕ :=
  (pyFind c l.reverse).map fun i => l.length - 1 - i

/-- The left-brace character (code point 123). -/
def lbrace : Char := Char.ofNat 123

/-- The right-brace character (code point 125). -/
def rbrace : Char := Char.ofNat 125

/-- The slice `response_text[start_idx:end_idx+1]` from the first left
brace through the last right brace, applied only when both exist with
`end_idx > start_idx`. -/
def sliceBraces (l : List Char) : List Char :=
  match pyFind lbrace l, pyRFind rbrace l with
  | some i, some j => if i < j then (l.take (j + 1)).drop i else l
  | _, _ => l

/-- Embedding of `replace('\n', ' ').replace('\r', ' ')`: single-character replaces
compose into one character map. -/
def mapNewlines (l : List Char) : List Char :=
  l.map fun c => if c = '\n' || c = '\r' then ' ' else c

/-- Embedding of `str.split()` with no argument: maximal whitespace-free tokens, no
empty tokens. -/
def pySplitWs : List Char → List (List Char)
  | [] => []
  | c :: cs =>
    if isPySpace c then pySplitWs cs
    else (c :: cs.takeWhile fun d => !isPySpace d)
      :: pySplitWs (cs.dropWhile fun d => !isPySpace d)
termination_by l => l.length
decreasing_by
  · simp
  · simp only [List.length_cons]
    exact Nat.lt_succ_of_le (List.dropWhile_suffix _).length_le

/-- Embedding of `' '.join(x.split())`: collapse runs of whitespace to single spaces
and trim the ends. -/
def collapseWs (l : List Char) : List Char :=
  List.intercalate [' '] (pySplitWs l)

/-- The response-sanitation protocol of `triage_agent`: strip; remove
fenced code-block markers; strip; slice from the first left brace to the
last right brace; turn newlines and carriage returns into spaces;
normalize whitespace runs to single spaces. -/
def sanitizeChars (l : List Char) : List Char :=
  collapseWs (mapNewlines (sliceBraces (pyStrip
    (removeAll fence (removeAll fenceJson (pyStrip l))))))

/-- String-level sanitation protocol. -/
def sanitizeResponse (s : String) : String :=
  ⟨sanitizeChars s.data⟩

-- ===== THEOREMS =====

/-- The human-review node in one closed form: it synchronously computes
`human_approved` and `auto_escalate` from the state and touches nothing
else except `execution_path`. -/
theorem humanReviewNode_eq (s : WState) :
    humanReviewNode s =
      { s with
        human_approved := sevCritHigh s.severity && decide (s.confidence_score > 7/10)
        auto_escalate := sevCritHigh s.severity && decide (s.confidence_score > 7/10)
        execution_path := s.execution_path ++ ["human_review"] } := by
  by_cases h : (sevCritHigh s.severity && decide (s.confidence_score > 7/10)) = true
  · simp [humanReviewNode, h]
  · rw [Bool.not_eq_true] at h
    simp [humanReviewNode, h]

/-- Every branch of the review rule table, with the unreachable
`"escalation"` entries removed, collapses to the same two-stage tail. -/
theorem specHumanReviewTail_filter (sev : String) (conf : ℚ) :
    (specHumanReviewTail sev conf).filter (fun st => !(st == "escalation"))
      = ["human_review", "finalize"] := by
  unfold specHumanReviewTail
  split_ifs <;> rfl

/-- Behaviour of the sub-graph from the human-review node, on any state
whose `escalation_contact` is still the initial empty dict: whether or
not the review approves, the appended path tail is
`["human_review", "finalize"]` — on approval the escalation node is
entered, but its email rendering raises `KeyError` before `"escalation"`
is appended — the run always ends in the finalize node (status
`"completed"`), and severity/confidence are untouched. -/
theorem runFromHumanReview_spec (s : WState) (hesc : s.escalation_contact = none) :
    (runFromHumanReview s).execution_path
        = s.execution_path ++ ["human_review", "finalize"]
    ∧ (runFromHumanReview s).status = "completed"
    ∧ (runFromHumanReview s).human_approved
        = (sevCritHigh s.severity && decide (s.confidence_score > 7/10))
    ∧ (runFromHumanReview s).confidence_score = s.confidence_score
    ∧ (runFromHumanReview s).severity = s.severity := by
  by_cases h : (sevCritHigh s.severity && decide (s.confidence_score > 7/10)) = true
  · simp [runFromHumanReview, humanReviewNode_eq, routeAfterHumanReview, h,
      finalizeNode, escalationNode, generateEscalationEmail, hesc]
  · rw [Bool.not_eq_true] at h
    simp [runFromHumanReview, humanReviewNode_eq, routeAfterHumanReview, h,
      finalizeNode, escalationNode]

/-- Full characterization of one exception-free orchestrator run: the
execution path follows the §4.5 rule table applied to the recorded
severity, confidence and risk, except that `"escalation"` is never
recorded (the escalation node's email rendering raises `KeyError` on the
still-empty `escalation_contact` before the append); a low severity ends
the graph right after the triage node; any other severity reaches the
finalize node (status `"completed"`); and a severity that is neither low
nor critical/high goes through human review with the initial confidence
`0`, which is never approved. -/
theorem processAlert_spec (r : TriageResult) (d : DiagnosticResult) (p : PredictiveResult)
    (a c ts : String) :
    (processAlert (.ok r) d p a c ts).execution_path
        = (specPath (recordedSeverity r) (recordedConfidence d) (recordedRisk p)).filter
            (fun st => !(st == "escalation"))
    ∧ (recordedSeverity r = "low" →
        processAlert (.ok r) d p a c ts = triageNode (.ok r) (initialState a c ts))
    ∧ (recordedSeverity r ≠ "low" → (processAlert (.ok r) d p a c ts).status = "completed")
    ∧ (recordedSeverity r ≠ "low" → sevCritHigh (recordedSeverity r) = false →
        (processAlert (.ok r) d p a c ts).human_approved = false
        ∧ (processAlert (.ok r) d p a c ts).confidence_score = 0
        ∧ (processAlert (.ok r) d p a c ts).execution_path
            = ["triage", "human_review", "finalize"]) := by
  have hs1sev : (triageNode (.ok r) (initialState a c ts)).severity = recordedSeverity r := by
    simp [triageNode, initialState, recordedSeverity]
  have hs1path : (triageNode (.ok r) (initialState a c ts)).execution_path = ["triage"] := by
    simp [triageNode, initialState]
  have hs1conf : (triageNode (.ok r) (initialState a c ts)).confidence_score = 0 := by
    simp [triageNode, initialState]
  have hs1esc : (triageNode (.ok r) (initialState a c ts)).escalation_contact = none := by
    simp [triageNode, initialState]
  by_cases hlow : recordedSeverity r = "low"
  · have hroute : routeAfterTriage (triageNode (.ok r) (initialState a c ts)) = "end" := by
      simp [routeAfterTriage, hs1sev, hlow]
    have hF : processAlert (.ok r) d p a c ts = triageNode (.ok r) (initialState a c ts) := by
      simp [processAlert, runWorkflow, hroute]
    refine ⟨?_, fun _ => hF, fun hne => absurd hlow hne, fun hne => absurd hlow hne⟩
    rw [hF, hs1path]
    simp [specPath, hlow, List.filter]
  · by_cases hch : sevCritHigh (recordedSeverity r) = true
    · have hroute : routeAfterTriage (triageNode (.ok r) (initialState a c ts)) = "diagnostic" := by
        simp [routeAfterTriage, hs1sev, hlow, hch]
      have h2sev : (diagnosticNode d (triageNode (.ok r) (initialState a c ts))).severity
          = recordedSeverity r := by
        simp [diagnosticNode, hs1sev]
      have h2conf : (diagnosticNode d (triageNode (.ok r) (initialState a c ts))).confidence_score
          = recordedConfidence d := by
        simp [diagnosticNode, recordedConfidence]
      have h2path : (diagnosticNode d (triageNode (.ok r) (initialState a c ts))).execution_path
          = ["triage", "diagnostic"] := by
        simp [diagnosticNode, hs1path]
      have h2esc : (diagnosticNode d (triageNode (.ok r) (initialState a c ts))).escalation_contact
          = none := by
        simp [diagnosticNode, hs1esc]
      by_cases hc3 : recordedConfidence d < 3/10
      · -- low confidence: human review after diagnostic
        have hroute2 : routeAfterDiagnostic (diagnosticNode d (triageNode (.ok r) (initialState a c ts)))
            = "human_review" := by
          simp [routeAfterDiagnostic, h2conf, hc3]
        have hF : processAlert (.ok r) d p a c ts
            = runFromHumanReview (diagnosticNode d (triageNode (.ok r) (initialState a c ts))) := by
          simp [processAlert, runWorkflow, hroute, hroute2]
        obtain ⟨hp, hst, _, _, _⟩ :=
          runFromHumanReview_spec (diagnosticNode d (triageNode (.ok r) (initialState a c ts))) h2esc
        refine ⟨?_, fun h => absurd h hlow, fun _ => by rw [hF]; exact hst,
          fun _ hch' => by rw [hch] at hch'; exact absurd hch' (by simp)⟩
        rw [hF, hp, h2path]
        simp [specPath, hlow, hch, hc3, specHumanReviewTail_filter, List.filter]
      · by_cases hc7 : recordedConfidence d > 7/10
        · -- auto-escalation after diagnostic: the escalation node raises before appending
          have hroute2 : routeAfterDiagnostic (diagnosticNode d (triageNode (.ok r) (initialState a c ts)))
              = "escalation" := by
            simp [routeAfterDiagnostic, h2conf, h2sev, hc3, hch, hc7]
          have hF : processAlert (.ok r) d p a c ts
              = finalizeNode (escalationNode (diagnosticNode d (triageNode (.ok r) (initialState a c ts)))) := by
            simp [processAlert, runWorkflow, hroute, hroute2]
          refine ⟨?_, fun h => absurd h hlow, fun _ => by rw [hF]; simp [finalizeNode],
            fun _ hch' => by rw [hch] at hch'; exact absurd hch' (by simp)⟩
          rw [hF]
          simp [finalizeNode, escalationNode, generateEscalationEmail, h2esc, h2path]
          simp [specPath, hlow, hch, hc3, hc7, List.filter]
        · -- continue to predictive
          have hroute2 : routeAfterDiagnostic (diagnosticNode d (triageNode (.ok r) (initialState a c ts)))
              = "predictive" := by
            simp [routeAfterDiagnostic, h2conf, h2sev, hc3, hch, hc7]
          have h3sev : (predictiveNode p (diagnosticNode d (triageNode (.ok r) (initialState a c ts)))).severity
              = recordedSeverity r := by
            simp [predictiveNode, h2sev]
          have h3conf : (predictiveNode p (diagnosticNode d (triageNode (.ok r) (initialState a c ts)))).confidence_score
              = recordedConfidence d := by
            simp [predictiveNode, h2conf]
          have h3risk : (predictiveNode p (diagnosticNode d (triageNode (.ok r) (initialState a c ts)))).risk_assessment
              = recordedRisk p := by
            simp [predictiveNode, recordedRisk]
          have h3path : (predictiveNode p (diagnosticNode d (triageNode (.ok r) (initialState a c ts)))).execution_path
              = ["triage", "diagnostic", "predictive"] := by
            simp [predictiveNode, h2path]
          have h3esc : (predictiveNode p (diagnosticNode d (triageNode (.ok r) (initialState a c ts)))).escalation_contact
              = none := by
            simp [predictiveNode, h2esc]
          by_cases hrisk : recordedRisk p = "high"
          · have hroute3 : routeAfterPredictive
                (predictiveNode p (diagnosticNode d (triageNode (.ok r) (initialState a c ts))))
                = "escalation" := by
              simp [routeAfterPredictive, h3risk, h3sev, hrisk, hch]
            have hF : processAlert (.ok r) d p a c ts
                = finalizeNode (escalationNode
                    (predictiveNode p (diagnosticNode d (triageNode (.ok r) (initialState a c ts))))) := by
              simp [processAlert, runWorkflow, hroute, hroute2, hroute3]
            refine ⟨?_, fun h => absurd h hlow, fun _ => by rw [hF]; simp [finalizeNode],
              fun _ hch' => by rw [hch] at hch'; exact absurd hch' (by simp)⟩
            rw [hF]
            simp [finalizeNode, escalationNode, generateEscalationEmail, h3esc, h3path]
            simp [specPath, hlow, hch, hc3, hc7, hrisk, List.filter]
          · have hroute3 : routeAfterPredictive
                (predictiveNode p (diagnosticNode d (triageNode (.ok r) (initialState a c ts))))
                = "human_review" := by
              simp [routeAfterPredictive, h3risk, h3sev, hrisk]
            have hF : processAlert (.ok r) d p a c ts
                = runFromHumanReview
                    (predictiveNode p (diagnosticNode d (triageNode (.ok r) (initialState a c ts)))) := by
              simp [processAlert, runWorkflow, hroute, hroute2, hroute3]
            obtain ⟨hp, hst, _, _, _⟩ :=
              runFromHumanReview_spec
                (predictiveNode p (diagnosticNode d (triageNode (.ok r) (initialState a c ts)))) h3esc
            refine ⟨?_, fun h => absurd h hlow, fun _ => by rw [hF]; exact hst,
              fun _ hch' => by rw [hch] at hch'; exact absurd hch' (by simp)⟩
            rw [hF, hp, h3path]
            simp [specPath, hlow, hch, hc3, hc7, hrisk, specHumanReviewTail_filter, List.filter]
    · -- neither low nor critical/high: human review directly after triage
      rw [Bool.not_eq_true] at hch
      have hroute : routeAfterTriage (triageNode (.ok r) (initialState a c ts)) = "human_review" := by
        simp [routeAfterTriage, hs1sev, hlow, hch]
      have hF : processAlert (.ok r) d p a c ts
          = runFromHumanReview (triageNode (.ok r) (initialState a c ts)) := by
        simp [processAlert, runWorkflow, hroute]
      obtain ⟨hp, hst, happ, hcf, _⟩ :=
        runFromHumanReview_spec (triageNode (.ok r) (initialState a c ts)) hs1esc
      have htail : (processAlert (.ok r) d p a c ts).execution_path
          = ["triage"] ++ ["human_review", "finalize"] := by
        rw [hF, hp, hs1path]
      refine ⟨?_, fun h => absurd h hlow, fun _ => by rw [hF]; exact hst, fun _ _ => ?_⟩
      · rw [htail]
        simp [specPath, hlow, hch, specHumanReviewTail_filter, List.filter]
      · refine ⟨?_, ?_, ?_⟩
        · rw [hF, happ, hs1sev, hs1conf, hch]
          simp
        · rw [hF, hcf, hs1conf]
        · rw [htail]
          rfl

/-- A run whose triage analysis throws (unparsable LLM output): the
`except` branch appends nothing and leaves severity empty, the router
sends the empty severity to human review, and the run ends with the
two-stage path `["human_review", "finalize"]`, status `"completed"`,
no approval, and the triage error message preserved. -/
theorem processAlert_error_spec (msg : String) (d : DiagnosticResult) (p : PredictiveResult)
    (a c ts : String) :
    (processAlert (.error msg) d p a c ts).execution_path = ["human_review", "finalize"]
    ∧ (processAlert (.error msg) d p a c ts).status = "completed"
    ∧ (processAlert (.error msg) d p a c ts).human_approved = false := by
  have hs1sev : (triageNode (.error msg) (initialState a c ts)).severity = "" := by
    simp [triageNode, initialState]
  have hs1path : (triageNode (.error msg) (initialState a c ts)).execution_path = [] := by
    simp [triageNode, initialState]
  have hs1esc : (triageNode (.error msg) (initialState a c ts)).escalation_contact = none := by
    simp [triageNode, initialState]
  have hroute : routeAfterTriage (triageNode (.error msg) (initialState a c ts))
      = "human_review" := by
    simp [routeAfterTriage, sevCritHigh, hs1sev]
  have hF : processAlert (.error msg) d p a c ts
      = runFromHumanReview (triageNode (.error msg) (initialState a c ts)) := by
    simp [processAlert, runWorkflow, hroute]
  obtain ⟨hp, hst, happ, _, _⟩ :=
    runFromHumanReview_spec (triageNode (.error msg) (initialState a c ts)) hs1esc
  refine ⟨?_, by rw [hF]; exact hst, ?_⟩
  · rw [hF, hp, hs1path]
    rfl
  · rw [hF, happ, hs1sev]
    simp [sevCritHigh]

/-- The path dictated by the rule table always starts with `"triage"`. -/
theorem specPath_head (sev : String) (conf : ℚ) (risk : String) :
    (specPath sev conf risk).head? = some "triage" := by
  unfold specPath
  split_ifs <;> rfl

/-- The rule-table path with the `"escalation"` entries removed also
always starts with `"triage"`. -/
theorem specPath_filter_head (sev : String) (conf : ℚ) (risk : String) :
    ((specPath sev conf risk).filter (fun st => !(st == "escalation"))).head?
      = some "triage" := by
  unfold specPath specHumanReviewTail
  split_ifs <;> rfl

/-- C1: the four decision-policy functions follow the §4.5 rule table:
after triage, low severity ends the run, critical/high goes to
diagnostic, anything else to human review; after diagnostic, confidence
below 0.3 goes to human review, critical/high with confidence above 0.7
to escalation, all other cases to predictive (confidence exactly 0.3
does not take the human-review branch — strict inequality); after
predictive, high risk with critical/high severity escalates, else human
review; after human review, approval escalates, else finalize. -/
theorem routing_rule_table (s : WState) :
    (s.severity = "low" → routeAfterTriage s = "end")
    ∧ (s.severity = "critical" ∨ s.severity = "high" → routeAfterTriage s = "diagnostic")
    ∧ (s.severity ≠ "low" → ¬(s.severity = "critical" ∨ s.severity = "high") →
        routeAfterTriage s = "human_review")
    ∧ (s.confidence_score < 3/10 → routeAfterDiagnostic s = "human_review")
    ∧ (¬ s.confidence_score < 3/10 → (s.severity = "critical" ∨ s.severity = "high") →
        s.confidence_score > 7/10 → routeAfterDiagnostic s = "escalation")
    ∧ (¬ s.confidence_score < 3/10 →
        ¬((s.severity = "critical" ∨ s.severity = "high") ∧ s.confidence_score > 7/10) →
        routeAfterDiagnostic s = "predictive")
    ∧ (s.confidence_score = 3/10 → routeAfterDiagnostic s ≠ "human_review")
    ∧ (s.risk_assessment = "high" ∧ (s.severity = "critical" ∨ s.severity = "high") →
        routeAfterPredictive s = "escalation")
    ∧ (¬(s.risk_assessment = "high" ∧ (s.severity = "critical" ∨ s.severity = "high")) →
        routeAfterPredictive s = "human_review")
    ∧ (s.human_approved = true → routeAfterHumanReview s = "escalation")
    ∧ (s.human_approved = false → routeAfterHumanReview s = "finalize") := by
  refine ⟨fun h => by simp [routeAfterTriage, h],
    fun h => by rcases h with h | h <;> simp [routeAfterTriage, sevCritHigh, h],
    fun h1 h2 => by
      rw [not_or] at h2
      simp [routeAfterTriage, sevCritHigh, h1, h2.1, h2.2],
    fun h => by simp [routeAfterDiagnostic, h],
    fun h1 h2 h3 => by rcases h2 with h | h <;>
      simp [routeAfterDiagnostic, sevCritHigh, h1, h, h3],
    fun h1 h2 => ?_, fun h => ?_,
    fun h => by rcases h.2 with hc | hc <;>
      simp [routeAfterPredictive, sevCritHigh, h.1, hc],
    fun h => ?_,
    fun h => by simp [routeAfterHumanReview, h],
    fun h => by simp [routeAfterHumanReview, h]⟩
  · have hb : (sevCritHigh s.severity && decide (s.confidence_score > 7/10)) = false := by
      rcases Decidable.em (s.severity = "critical" ∨ s.severity = "high") with hch | hch
      · have hc : ¬ s.confidence_score > 7/10 := fun hc => h2 ⟨hch, hc⟩
        simp [hc]
      · rw [not_or] at hch
        simp [sevCritHigh, hch.1, hch.2]
    simp [routeAfterDiagnostic, h1, hb]
  · have h1 : ¬ s.confidence_score < 3/10 := by rw [h]; norm_num
    by_cases hb : (sevCritHigh s.severity && decide (s.confidence_score > 7/10)) = true <;>
      simp [routeAfterDiagnostic, h1, hb]
  · have hb : (decide (s.risk_assessment = "high") && sevCritHigh s.severity) = false := by
      rcases Decidable.em (s.risk_assessment = "high") with hr | hr
      · have hc : ¬(s.severity = "critical" ∨ s.severity = "high") := fun hc => h ⟨hr, hc⟩
        rw [not_or] at hc
        simp [sevCritHigh, hc.1, hc.2]
      · simp [hr]
    simp [routeAfterPredictive, hb]

/-- Witness for C1: each branch of the rule table evaluated at a concrete
state. -/
theorem routing_rule_table_witness :
    routeAfterTriage { initialState "" "" "" with severity := "low" } = "end"
    ∧ routeAfterTriage { initialState "" "" "" with severity := "critical" } = "diagnostic"
    ∧ routeAfterTriage { initialState "" "" "" with severity := "medium" } = "human_review"
    ∧ routeAfterDiagnostic
        { initialState "" "" "" with severity := "critical", confidence_score := 1/5 }
        = "human_review"
    ∧ routeAfterDiagnostic
        { initialState "" "" "" with severity := "critical", confidence_score := 4/5 }
        = "escalation"
    ∧ routeAfterDiagnostic
        { initialState "" "" "" with severity := "critical", confidence_score := 1/2 }
        = "predictive"
    ∧ routeAfterDiagnostic
        { initialState "" "" "" with severity := "medium", confidence_score := 3/10 }
        ≠ "human_review"
    ∧ routeAfterPredictive
        { initialState "" "" "" with severity := "high", risk_assessment := "high" }
        = "escalation"
    ∧ routeAfterPredictive
        { initialState "" "" "" with severity := "medium", risk_assessment := "high" }
        = "human_review"
    ∧ routeAfterHumanReview { initialState "" "" "" with human_approved := true } = "escalation"
    ∧ routeAfterHumanReview { initialState "" "" "" with human_approved := false } = "finalize" :=
  ⟨(routing_rule_table _).1 rfl,
   (routing_rule_table _).2.1 (Or.inl rfl),
   (routing_rule_table _).2.2.1 (by decide) (by decide),
   (routing_rule_table _).2.2.2.1 (by norm_num),
   (routing_rule_table _).2.2.2.2.1 (by norm_num) (Or.inl rfl) (by norm_num),
   (routing_rule_table _).2.2.2.2.2.1 (by norm_num)
     (fun h => by have := h.2; norm_num at this),
   (routing_rule_table _).2.2.2.2.2.2.1 rfl,
   (routing_rule_table _).2.2.2.2.2.2.2.1 ⟨rfl, Or.inr rfl⟩,
   (routing_rule_table _).2.2.2.2.2.2.2.2.1 (fun h => by have := h.2; simp at this),
   (routing_rule_table _).2.2.2.2.2.2.2.2.2.1 rfl,
   (routing_rule_table _).2.2.2.2.2.2.2.2.2.2 rfl⟩

/-- C2 counterexample: a critical-severity run with diagnostic
confidence 0.9 is routed to the escalation node by the rule table, but
the recorded execution path is `["triage", "diagnostic", "finalize"]` —
not the rule-table path `["triage", "diagnostic", "escalation",
"finalize"]` — because `_generate_escalation_email` reads the state's
still-empty `escalation_contact` and raises `KeyError` before
`"escalation"` is appended. -/
theorem escalation_entry_never_recorded :
    (processAlert (.ok ⟨some "CNTR", some [], some "error", some "critical", some "high"⟩)
        ⟨none, none, some (9/10), none, none⟩ ⟨none, none, none⟩
        "CRITICAL: Container allocation system down" "PSA-5" "T").execution_path
      = ["triage", "diagnostic", "finalize"]
    ∧ specPath "critical" (9/10) "medium"
      = ["triage", "diagnostic", "escalation", "finalize"]
    ∧ (["triage", "diagnostic", "finalize"] : List String)
      ≠ ["triage", "diagnostic", "escalation", "finalize"] := by
  have h1 : ¬((9 : ℚ)/10 < 3/10) := by norm_num
  have h2 : (9 : ℚ)/10 > 7/10 := by norm_num
  have hsp : specPath "critical" (9/10) "medium"
      = ["triage", "diagnostic", "escalation", "finalize"] := by
    simp [specPath, sevCritHigh, h1, h2]
  refine ⟨?_, hsp, by decide⟩
  obtain ⟨hp, _, _, _⟩ := processAlert_spec
    ⟨some "CNTR", some [], some "error", some "critical", some "high"⟩
    ⟨none, none, some (9/10), none, none⟩ ⟨none, none, none⟩
    "CRITICAL: Container allocation system down" "PSA-5" "T"
  rw [hp]
  have hr : recordedSeverity ⟨some "CNTR", some [], some "error", some "critical", some "high"⟩
      = "critical" := rfl
  have hd : recordedConfidence ⟨none, none, some (9/10), none, none⟩ = 9/10 := rfl
  have hk : recordedRisk (⟨none, none, none⟩ : PredictiveResult) = "medium" := rfl
  rw [hr, hd, hk, hsp]
  rfl

/-- C2 (amended): for a run whose triage analysis parses, the execution
path equals the §4.5 rule-table path with every `"escalation"` entry
deleted (the escalation node's email rendering raises `KeyError` on the
still-empty `escalation_contact` before appending), it always starts
with triage, a low recorded severity yields `["triage"]` with no
diagnostic or predictive stage, and `"escalation"` is never recorded;
a run whose triage analysis throws records `["human_review",
"finalize"]`. -/
theorem execution_path_sans_escalation (r : TriageResult) (msg : String)
    (d : DiagnosticResult) (p : PredictiveResult) (a c ts : String) :
    ((processAlert (.ok r) d p a c ts).execution_path
        = (specPath (recordedSeverity r) (recordedConfidence d) (recordedRisk p)).filter
            (fun st => !(st == "escalation"))
      ∧ (processAlert (.ok r) d p a c ts).execution_path.head? = some "triage"
      ∧ (recordedSeverity r = "low" →
          (processAlert (.ok r) d p a c ts).execution_path = ["triage"]
          ∧ "diagnostic" ∉ (processAlert (.ok r) d p a c ts).execution_path
          ∧ "predictive" ∉ (processAlert (.ok r) d p a c ts).execution_path))
    ∧ "escalation" ∉ (processAlert (.ok r) d p a c ts).execution_path
    ∧ (processAlert (.error msg) d p a c ts).execution_path
        = ["human_review", "finalize"] := by
  obtain ⟨h1, h2, _, _⟩ := processAlert_spec r d p a c ts
  obtain ⟨he, _, _⟩ := processAlert_error_spec msg d p a c ts
  have hl : recordedSeverity r = "low" →
      (processAlert (.ok r) d p a c ts).execution_path = ["triage"] := by
    intro hl
    rw [h2 hl]
    simp [triageNode, initialState]
  refine ⟨⟨h1, ?_, fun hlw => ⟨hl hlw, ?_, ?_⟩⟩, ?_, he⟩
  · rw [h1]
    exact specPath_filter_head _ _ _
  · rw [hl hlw]
    simp
  · rw [hl hlw]
    simp
  · rw [h1]
    simp [List.mem_filter]

/-- Witness for the amended C2: a concrete low-severity run records the
one-stage path, and a concrete run with unparsable triage output records
`["human_review", "finalize"]`. -/
theorem execution_path_sans_escalation_witness :
    (processAlert (.ok ⟨some "CNTR", some [], some "info", some "low", some "low"⟩)
        ⟨none, none, none, none, none⟩ ⟨none, none, none⟩
        "INFO: System maintenance completed successfully" "PSA-1" "T").execution_path
      = ["triage"]
    ∧ (processAlert (.error "Expecting value: line 1 column 1 (char 0)")
        ⟨none, none, none, none, none⟩ ⟨none, none, none⟩
        "garbled model output" "PSA-6" "T").execution_path
      = ["human_review", "finalize"] :=
  ⟨((execution_path_sans_escalation
      ⟨some "CNTR", some [], some "info", some "low", some "low"⟩
      "Expecting value: line 1 column 1 (char 0)"
      ⟨none, none, none, none, none⟩ ⟨none, none, none⟩
      "INFO: System maintenance completed successfully" "PSA-1" "T").1.2.2 rfl).1,
   (execution_path_sans_escalation
      ⟨some "CNTR", some [], some "info", some "low", some "low"⟩
      "Expecting value: line 1 column 1 (char 0)"
      ⟨none, none, none, none, none⟩ ⟨none, none, none⟩
      "garbled model output" "PSA-6" "T").2.2⟩

/-- C3 counterexample: a run whose triage severity is low takes the END
edge straight after triage, so the finalize node never runs and the
final status is still the initial `"processing"` — neither `"completed"`
nor `"error"`. -/
theorem low_severity_status_stays_processing :
    (processAlert (.ok ⟨some "CNTR", some [], some "info", some "low", some "low"⟩)
        ⟨none, none, none, none, none⟩ ⟨none, none, none⟩
        "INFO: System maintenance completed successfully" "PSA-1" "T").status
      = "processing"
    ∧ ("processing" : String) ≠ "completed" ∧ ("processing" : String) ≠ "error" := by
  refine ⟨?_, by decide, by decide⟩
  obtain ⟨_, h2, _, _⟩ := processAlert_spec
    ⟨some "CNTR", some [], some "info", some "low", some "low"⟩
    ⟨none, none, none, none, none⟩ ⟨none, none, none⟩
    "INFO: System maintenance completed successfully" "PSA-1" "T"
  rw [h2 rfl]
  simp [triageNode, initialState]

/-- C3 (amended): in every exception-free run, a non-low recorded severity
terminates with status `"completed"`, while the early-termination path
(severity `"low"` after triage) leaves the status at its initial
`"processing"` value. -/
theorem run_status_terminal (r : TriageResult) (d : DiagnosticResult)
    (p : PredictiveResult) (a c ts : String) :
    (recordedSeverity r ≠ "low" → (processAlert (.ok r) d p a c ts).status = "completed")
    ∧ (recordedSeverity r = "low" → (processAlert (.ok r) d p a c ts).status = "processing") := by
  obtain ⟨_, h2, h3, _⟩ := processAlert_spec r d p a c ts
  refine ⟨h3, fun hl => ?_⟩
  rw [h2 hl]
  simp [triageNode, initialState]

/-- Witness for the amended C3 at concrete critical and low runs. -/
theorem run_status_terminal_witness :
    (processAlert (.ok ⟨some "CNTR", some [], some "error", some "critical", some "high"⟩)
        ⟨none, none, some 1, none, none⟩ ⟨none, none, none⟩ "CRITICAL: down" "PSA-2" "T").status
      = "completed"
    ∧ (processAlert (.ok ⟨some "CNTR", some [], some "info", some "low", some "low"⟩)
        ⟨none, none, none, none, none⟩ ⟨none, none, none⟩ "INFO: ok" "PSA-3" "T").status
      = "processing" :=
  ⟨(run_status_terminal _ _ _ _ _ _).1 (by decide),
   (run_status_terminal _ _ _ _ _ _).2 rfl⟩

/-- C4 counterexample: the human-review node itself assigns
`human_approved`: on a critical-severity state with confidence 1 and
`human_approved = false`, the node returns `human_approved = true`, so
entering human review does not leave `human_approved` unchanged and no
external approve/reject signal is consulted. -/
theorem human_review_node_mutates_approval :
    (humanReviewNode
        { initialState "a" "c" "t" with severity := "critical", confidence_score := 1 }).human_approved
      = true
    ∧ ({ initialState "a" "c" "t" with
          severity := "critical", confidence_score := 1 } : WState).human_approved = false := by
  constructor
  · rw [humanReviewNode_eq]
    have h1 : ((1 : ℚ) > 7/10) := by norm_num
    simp [sevCritHigh, h1]
  · simp [initialState]

/-- C4 (amended): the human-review node is a synchronous computation, not
a suspension: it sets `human_approved` and `auto_escalate` to
`severity ∈ {critical, high} ∧ confidence_score > 0.7`, appends
`"human_review"` to the execution path, and leaves every other field of
the WorkflowState unchanged. -/
theorem human_review_synchronous (s : WState) :
    humanReviewNode s =
      { s with
        human_approved := sevCritHigh s.severity && decide (s.confidence_score > 7/10)
        auto_escalate := sevCritHigh s.severity && decide (s.confidence_score > 7/10)
        execution_path := s.execution_path ++ ["human_review"] } :=
  humanReviewNode_eq s

/-- C10: the human-review node sets `human_approved` (and equally
`auto_escalate`) to true exactly when severity is critical/high and
confidence exceeds 0.7, reading only the WorkflowState; consequently a
run routed to human review straight after triage still has the initial
confidence 0, is never approved, and every medium-severity alert runs
triage → human_review → finalize without ever reaching escalation. -/
theorem human_review_approval_policy :
    (∀ s : WState,
        ((humanReviewNode s).human_approved = true
          ↔ ((s.severity = "critical" ∨ s.severity = "high") ∧ s.confidence_score > 7/10))
        ∧ (humanReviewNode s).auto_escalate = (humanReviewNode s).human_approved)
    ∧ (∀ (r : TriageResult) (d : DiagnosticResult) (p : PredictiveResult) (a c ts : String),
        recordedSeverity r = "medium" →
        (processAlert (.ok r) d p a c ts).confidence_score = 0
        ∧ (processAlert (.ok r) d p a c ts).human_approved = false
        ∧ (processAlert (.ok r) d p a c ts).execution_path
            = ["triage", "human_review", "finalize"]
        ∧ "escalation" ∉ (processAlert (.ok r) d p a c ts).execution_path) := by
  constructor
  · intro s
    constructor
    · rw [humanReviewNode_eq]
      simp [sevCritHigh, Bool.and_eq_true, decide_eq_true_eq]
    · rw [humanReviewNode_eq]
  · intro r d p a c ts hmed
    have h1 : recordedSeverity r ≠ "low" := by rw [hmed]; decide
    have h2 : sevCritHigh (recordedSeverity r) = false := by rw [hmed]; decide
    obtain ⟨_, _, _, h4⟩ := processAlert_spec r d p a c ts
    obtain ⟨ha, hc, hp⟩ := h4 h1 h2
    refine ⟨hc, ha, hp, ?_⟩
    rw [hp]
    simp

/-- Witness for C10: concrete approval at critical/0.9, and the concrete
medium-severity run path. -/
theorem human_review_approval_policy_witness :
    (humanReviewNode
        { initialState "" "" "" with severity := "critical", confidence_score := 9/10 }).human_approved
      = true
    ∧ (processAlert (.ok ⟨some "CNTR", some [], some "warning", some "medium", some "medium"⟩)
        ⟨none, none, none, none, none⟩ ⟨none, none, none⟩
        "WARNING: Container CMAU1234567 has minor duplicate records" "PSA-4" "T").execution_path
      = ["triage", "human_review", "finalize"] := by
  constructor
  · exact ((human_review_approval_policy.1 _).1).mpr
      ⟨Or.inl rfl, by show (9 : ℚ)/10 > 7/10; norm_num⟩
  · exact (human_review_approval_policy.2
      ⟨some "CNTR", some [], some "warning", some "medium", some "medium"⟩
      ⟨none, none, none, none, none⟩ ⟨none, none, none⟩
      "WARNING: Container CMAU1234567 has minor duplicate records" "PSA-4" "T" rfl).2.2.1

/-! ### Hybrid retriever lemmas -/

/-- Elements surviving a dedupe pass come from the input and were not
already seen. -/
theorem mem_dedupeSkip {docs : List CandidateDoc} :
    ∀ {seen : List String} {d : CandidateDoc},
      d ∈ dedupeSkip seen docs → d ∈ docs ∧ d.id ∉ seen := by
  induction docs with
  | nil => intro seen d h; simp [dedupeSkip] at h
  | cons d0 rest ih =>
    intro seen d h
    by_cases h0 : d0.id ∈ seen
    · simp only [dedupeSkip, if_pos h0] at h
      obtain ⟨h1, h2⟩ := ih h
      exact ⟨List.mem_cons_of_mem _ h1, h2⟩
    · simp only [dedupeSkip, if_neg h0, List.mem_cons] at h
      rcases h with rfl | h
      · exact ⟨List.mem_cons_self _ _, h0⟩
      · obtain ⟨h1, h2⟩ := ih h
        refine ⟨List.mem_cons_of_mem _ h1, fun hc => h2 ?_⟩
        exact List.mem_cons_of_mem _ hc

/-- Every unseen input id is represented in the dedupe pass output. -/
theorem dedupeSkip_exists_id {docs : List CandidateDoc} :
    ∀ {seen : List String} {d : CandidateDoc},
      d ∈ docs → d.id ∉ seen → ∃ d' ∈ dedupeSkip seen docs, d'.id = d.id := by
  induction docs with
  | nil => intro seen d h; simp at h
  | cons d0 rest ih =>
    intro seen d h hns
    rcases List.mem_cons.mp h with rfl | h
    · simp only [dedupeSkip, if_neg hns]
      exact ⟨d, List.mem_cons_self _ _, rfl⟩
    · by_cases h0 : d0.id ∈ seen
      · simp only [dedupeSkip, if_pos h0]
        exact ih h hns
      · simp only [dedupeSkip, if_neg h0]
        by_cases heq : d.id = d0.id
        · exact ⟨d0, List.mem_cons_self _ _, heq.symm⟩
        · obtain ⟨d', hd', hid⟩ := ih h (by
            intro hc
            rcases List.mem_cons.mp hc with hc | hc
            · exact heq hc
            · exact hns hc)
          exact ⟨d', List.mem_cons_of_mem _ hd', hid⟩

/-- The `seen_ids` set after a pass holds exactly the old ids plus the
ids of the pass input. -/
theorem mem_seenAfter {docs : List CandidateDoc} :
    ∀ {seen : List String} {x : String},
      x ∈ seenAfter seen docs ↔ x ∈ seen ∨ ∃ d ∈ docs, d.id = x := by
  induction docs with
  | nil => intro seen x; simp [seenAfter]
  | cons d0 rest ih =>
    intro seen x
    by_cases h0 : d0.id ∈ seen
    · simp only [seenAfter, if_pos h0, ih, List.mem_cons]
      constructor
      · rintro (hx | ⟨d, hd, rfl⟩)
        · exact Or.inl hx
        · exact Or.inr ⟨d, Or.inr hd, rfl⟩
      · rintro (hx | ⟨d, rfl | hd, rfl⟩)
        · exact Or.inl hx
        · exact Or.inl h0
        · exact Or.inr ⟨d, hd, rfl⟩
    · simp only [seenAfter, if_neg h0, ih, List.mem_cons]
      constructor
      · rintro (⟨rfl | hx⟩ | ⟨d, hd, rfl⟩)
        · exact Or.inr ⟨d0, Or.inl rfl, rfl⟩
        · exact Or.inl hx
        · exact Or.inr ⟨d, Or.inr hd, rfl⟩
      · rintro (hx | ⟨d, rfl | hd, rfl⟩)
        · exact Or.inl (Or.inr hx)
        · exact Or.inl (Or.inl rfl)
        · exact Or.inr ⟨d, hd, rfl⟩

/-- A dedupe pass emits pairwise-distinct document ids. -/
theorem dedupeSkip_pairwise {docs : List CandidateDoc} :
    ∀ {seen : List String},
      (dedupeSkip seen docs).Pairwise (fun a b => a.id ≠ b.id) := by
  induction docs with
  | nil => intro seen; simp [dedupeSkip]
  | cons d0 rest ih =>
    intro seen
    by_cases h0 : d0.id ∈ seen
    · simp only [dedupeSkip, if_pos h0]
      exact ih
    · simp only [dedupeSkip, if_neg h0]
      refine List.Pairwise.cons ?_ ih
      intro b hb hc
      have := (mem_dedupeSkip hb).2
      exact this (hc ▸ List.mem_cons_self _ _)

/-- Inserting preserves the multiset. -/
theorem insertByRelevance_perm (d : CandidateDoc) (l : List CandidateDoc) :
    (insertByRelevance d l).Perm (d :: l) := by
  induction l with
  | nil => simp [insertByRelevance]
  | cons e es ih =>
    by_cases h : d.relevance_score < e.relevance_score
    · simp only [insertByRelevance, if_pos h]
      exact (ih.cons e).trans (List.Perm.swap d e es)
    · simp only [insertByRelevance, if_neg h]
      exact List.Perm.refl _

/-- The relevance sort is a permutation of its input. -/
theorem sortByRelevance_perm (l : List CandidateDoc) :
    (sortByRelevance l).Perm l := by
  induction l with
  | nil => simp [sortByRelevance]
  | cons d ds ih =>
    exact (insertByRelevance_perm d (sortByRelevance ds)).trans (ih.cons d)

/-- The combined pre-sort list has pairwise-distinct ids. -/
theorem combineDedupe_pairwise (sem kw : List CandidateDoc) :
    (combineDedupe sem kw).Pairwise (fun a b => a.id ≠ b.id) := by
  rw [combineDedupe, List.pairwise_append]
  refine ⟨dedupeSkip_pairwise, dedupeSkip_pairwise, ?_⟩
  intro a ha b hb hc
  have hb' := (mem_dedupeSkip hb).2
  have ha' := (mem_dedupeSkip ha).1
  exact hb' (mem_seenAfter.mpr (Or.inr ⟨a, ha', hc⟩))

/-- In a list with pairwise-distinct ids, an id that occurs occurs
exactly once. -/
theorem countP_id_eq_one {l : List CandidateDoc} {i : String}
    (hp : l.Pairwise (fun a b => a.id ≠ b.id)) (hx : ∃ d ∈ l, d.id = i) :
    l.countP (fun d => d.id == i) = 1 := by
  induction l with
  | nil => simp at hx
  | cons d0 rest ih =>
    rcases List.pairwise_cons.mp hp with ⟨hd0, hrest⟩
    by_cases h0 : d0.id = i
    · have hz : rest.countP (fun d => d.id == i) = 0 := by
        rw [List.countP_eq_zero]
        intro b hb
        simp only [beq_iff_eq]
        intro hbi
        exact hd0 b hb (h0.trans hbi.symm)
      rw [List.countP_cons]
      simp [h0, hz]
    · rcases hx with ⟨d, hd, hdi⟩
      rcases List.mem_cons.mp hd with rfl | hd
      · exact absurd hdi h0
      · rw [List.countP_cons]
        simp only [beq_iff_eq, h0]
        rw [ih hrest ⟨d, hd, hdi⟩]
        simp

/-- C5: the merged hybrid-retrieval output has pairwise-distinct document
ids, and an id occurring in both the semantic and the keyword result set
appears exactly once in the merged output, through a document taken from
the semantic set. -/
theorem hybrid_merge_dedupes (sem kw : List CandidateDoc) :
    (sortByRelevance (combineDedupe sem kw)).Pairwise (fun a b => a.id ≠ b.id)
    ∧ ∀ d1 ∈ sem, ∀ d2 ∈ kw, d1.id = d2.id →
        (sortByRelevance (combineDedupe sem kw)).countP (fun d => d.id == d1.id) = 1
        ∧ ∀ d ∈ sortByRelevance (combineDedupe sem kw), d.id = d1.id → d ∈ sem := by
  have hperm := sortByRelevance_perm (combineDedupe sem kw)
  have hpair : (sortByRelevance (combineDedupe sem kw)).Pairwise (fun a b => a.id ≠ b.id) :=
    (hperm.pairwise_iff (fun h e => h e.symm)).mpr (combineDedupe_pairwise sem kw)
  refine ⟨hpair, fun d1 h1 d2 h2 hid => ⟨?_, ?_⟩⟩
  · rw [hperm.countP_eq]
    refine countP_id_eq_one (combineDedupe_pairwise sem kw) ?_
    obtain ⟨d', hd', hd'i⟩ := @dedupeSkip_exists_id sem [] d1 h1 (by simp)
    exact ⟨d', List.mem_append_left _ hd', hd'i⟩
  · intro d hd hdi
    have hd' := hperm.mem_iff.mp hd
    rcases List.mem_append.mp hd' with hmem | hmem
    · exact (mem_dedupeSkip hmem).1
    · have hseen := (mem_dedupeSkip hmem).2
      exact absurd (mem_seenAfter.mpr (Or.inr ⟨d1, h1, hdi.symm⟩)) hseen

/-- Witness for C5 at a concrete duplicated id. -/
theorem hybrid_merge_dedupes_witness :
    (sortByRelevance (combineDedupe
        [{ id := "SOP-1", document := "sem doc", metadata := [], distance := 0,
           search_type := "semantic", relevance_score := 1 }]
        [{ id := "SOP-1", document := "kw doc", metadata := [], distance := 0,
           search_type := "keyword", relevance_score := 1 }])).countP (fun d => d.id == "SOP-1") = 1
    ∧ ∀ d ∈ sortByRelevance (combineDedupe
        [{ id := "SOP-1", document := "sem doc", metadata := [], distance := 0,
           search_type := "semantic", relevance_score := 1 }]
        [{ id := "SOP-1", document := "kw doc", metadata := [], distance := 0,
           search_type := "keyword", relevance_score := 1 }]),
        d.id = "SOP-1" →
        d ∈ [({ id := "SOP-1", document := "sem doc", metadata := [], distance := 0,
                search_type := "semantic", relevance_score := 1 } : CandidateDoc)] :=
  (hybrid_merge_dedupes
      [{ id := "SOP-1", document := "sem doc", metadata := [], distance := 0,
         search_type := "semantic", relevance_score := 1 }]
      [{ id := "SOP-1", document := "kw doc", metadata := [], distance := 0,
         search_type := "keyword", relevance_score := 1 }]).2
    _ (List.mem_singleton.mpr rfl) _ (List.mem_singleton.mpr rfl) rfl

/-- C6: a module with no collection yields `[]` (not an error), and if the
semantic query throws, the retriever retries once with a plain
similarity query (`n_results = 3`, no keyword constraint) and returns
its hits, or `[]` if that also throws; no failure escapes (the function
is total). -/
theorem retriever_failure_policy (hasCollection : String → Bool) (q : QueryFn)
    (alert module : String) (entities : List String) :
    (hasCollection module = false →
      retrieveCandidateSops hasCollection q alert module entities = [])
    ∧ (hasCollection module = true →
      ∀ msg, q { text := alert, n_results := 5,
                 whereMeta := [("doc_type", "SOP")], whereDoc := none } = .error msg →
        retrieveCandidateSops hasCollection q alert module entities
          = match q { text := alert, n_results := 3,
                      whereMeta := [("doc_type", "SOP")], whereDoc := none } with
            | .ok rs => mkDocs "fallback" rs
            | .error _ => []) := by
  constructor
  · intro h
    simp [retrieveCandidateSops, h]
  · intro h msg herr
    simp [retrieveCandidateSops, h, herr]

/-- Witness for C6: a concretely missing module, and a concretely
throwing semantic query recovered by the plain top-3 retry. -/
theorem retriever_failure_policy_witness :
    retrieveCandidateSops (fun _ => false)
        (fun _ => .ok []) "alert" "CNTR" []
      = []
    ∧ retrieveCandidateSops (fun _ => true)
        (fun s => if s.n_results = 5 then .error "boom"
                  else .ok [{ id := "SOP-9", document := "d", metadata := [], distance := 0 }])
        "alert" "CNTR" []
      = mkDocs "fallback" [{ id := "SOP-9", document := "d", metadata := [], distance := 0 }] := by
  constructor
  · exact (retriever_failure_policy (fun _ => false) (fun _ => .ok []) "alert" "CNTR" []).1 rfl
  · have h := (retriever_failure_policy (fun _ => true)
        (fun s => if s.n_results = 5 then .error "boom"
                  else .ok [{ id := "SOP-9", document := "d", metadata := [], distance := 0 }])
        "alert" "CNTR" []).2 rfl "boom" rfl
    rw [h]
    simp

/-! ### Fallback triage classifier lemmas -/

/-- Any text containing `information` contains `info`. -/
theorem pyContains_info_of_information {tl : String}
    (h : pyContains tl "information" = true) : pyContains tl "info" = true := by
  simp only [pyContains, decide_eq_true_eq] at h ⊢
  exact List.IsInfix.trans (by decide) h

/-- The source's high-severity keyword test agrees with the amended
claim list (same keywords, `immediate` placed last). -/
theorem any_high_eq_amended (tl : String) :
    (highSeverityKeywords.any fun k => pyContains tl k)
      = ((claimHighKeywords ++ ["immediate"]).any fun k => pyContains tl k) := by
  simp only [highSeverityKeywords, claimHighKeywords, List.cons_append, List.nil_append,
    List.any_cons, List.any_nil]
  generalize pyContains tl "critical" = a
  generalize pyContains tl "urgent" = b
  generalize pyContains tl "immediate" = c
  generalize pyContains tl "down" = d
  generalize pyContains tl "failed" = e
  generalize pyContains tl "error" = f
  cases a <;> cases b <;> cases c <;> cases d <;> cases e <;> cases f <;> rfl

/-- The source's low-severity keyword test agrees with the claimed
`info/notice` list: `information` is redundant because any text
containing it contains `info`. -/
theorem any_low_eq_claim (tl : String) :
    (lowSeverityKeywords.any fun k => pyContains tl k)
      = (claimLowKeywords.any fun k => pyContains tl k) := by
  simp only [lowSeverityKeywords, claimLowKeywords, List.any_cons, List.any_nil]
  by_cases h : pyContains tl "information" = true
  · have h2 := pyContains_info_of_information h
    simp [h, h2]
  · rw [Bool.not_eq_true] at h
    simp [h]

/-- The whole severity ladder of the source equals the amended ladder. -/
theorem fallbackSeverity_eq_amended (tl : String) :
    fallbackSeverity tl = amendedSeverityLadder tl := by
  unfold fallbackSeverity amendedSeverityLadder
  rw [any_high_eq_amended, any_low_eq_claim]

/-- C8 counterexample: on the alert `"Immediate attention needed"` the
fallback classifier returns severity `"high"` (the source's high list
also contains `immediate`), while the claim's stated ladder
(critical/urgent/down/failed/error ⇒ high, …, default medium) yields
`"medium"`. -/
theorem fallback_severity_counterexample :
    (fallback_triage_agent "Immediate attention needed").severity = "high"
    ∧ claimSeverityLadder (lowerStr "Immediate attention needed") = "medium"
    ∧ ("high" : String) ≠ "medium" := by
  exact ⟨rfl, rfl, by decide⟩

/-- C8 (amended): the fallback classifier assigns the module by the
case-insensitive keyword rule table (container → CNTR, vessel → VSL,
EDI/messaging → EDI/API, infra → Infra/SRE, else Unknown), truncates the
pattern-extracted entities to at most 5, and derives severity and
urgency from the keyword ladder amended with `immediate` in the high
list (critical/urgent/immediate/down/failed/error ⇒ high;
warning/issue/problem ⇒ medium; info/notice ⇒ low; default medium). -/
theorem fallback_triage_rule_table (alert_text : String) :
    (fallback_triage_agent alert_text).module = claimModuleTable (lowerStr alert_text)
    ∧ (fallback_triage_agent alert_text).severity = amendedSeverityLadder (lowerStr alert_text)
    ∧ (fallback_triage_agent alert_text).urgency = amendedSeverityLadder (lowerStr alert_text)
    ∧ (fallback_triage_agent alert_text).entities.length ≤ 5 := by
  refine ⟨rfl, fallbackSeverity_eq_amended _, fallbackSeverity_eq_amended _, ?_⟩
  show ((fallbackModuleEntities alert_text (lowerStr alert_text)
      ++ findErrorCodes alert_text).take 5).length ≤ 5
  rw [List.length_take]
  exact min_le_left _ _

/-! ### Predictive stage lemmas -/

/-- C9 counterexample: when the historical filter matches no rows, the
orchestrator's predictive analysis returns `_fallback_predictive`, whose
risk level is `"medium"`, not `"low"`. -/
theorem predictive_no_match_counterexample :
    (analyzeHistoricalPatterns (fun _ => "") (fun _ => 0)
        ["EDI message stuck in translation queue"]
        "Database connection failure on node 7").risk_level = "medium"
    ∧ ("medium" : String) ≠ "low" :=
  ⟨rfl, by decide⟩

/-- C9 (amended): with no matching historical rows each predictive
implementation returns its fixed no-data result — the orchestrator's
`_fallback_predictive` with `risk_level = "medium"`, and
`run_predictive_agent`'s fixed dicts with `confidence = "low"` (for an
empty filter result and for an empty corpus respectively). -/
theorem predictive_no_match_fixed_results
    (renderFloat : ℚ → String) (avgResolution : List String → ℚ)
    (data : List String) (problem : String)
    (rest : List (List String) → AppPredictive) (appData : List (List String))
    (entities : List String) :
    ((data.filter fun ps => pyContainsCI ps (takeStr 50 problem)) = [] →
      analyzeHistoricalPatterns renderFloat avgResolution data problem = fallbackPredictive)
    ∧ fallbackPredictive.risk_level = "medium"
    ∧ (appData ≠ [] → filterHistoricalCases appData problem entities = [] →
      runPredictiveAgent rest appData problem entities
        = { predictive_insight := "No similar historical cases found for prediction"
            confidence := "low" })
    ∧ (appData = [] →
      runPredictiveAgent rest appData problem entities
        = { predictive_insight := "No historical data available for prediction"
            confidence := "low" }) := by
  refine ⟨fun hf => ?_, rfl, fun hne hf => ?_, fun he => ?_⟩
  · by_cases hd : data.isEmpty
    · simp [analyzeHistoricalPatterns, hd]
    · simp [analyzeHistoricalPatterns, hd, hf]
  · have h1 : appData.isEmpty = false := by
      rcases appData with _ | ⟨r, rs⟩
      · exact absurd rfl hne
      · rfl
    simp [runPredictiveAgent, h1, hf]
  · subst he
    rfl

/-- Witness for the amended C9 at concrete no-match inputs. -/
theorem predictive_no_match_fixed_results_witness :
    analyzeHistoricalPatterns (fun _ => "") (fun _ => 0)
        ["EDI message stuck"] "Database outage" = fallbackPredictive
    ∧ runPredictiveAgent (fun _ => { predictive_insight := "x", confidence := "high" })
        [["EDI message stuck"]] "Database outage" ["VSL123"]
      = { predictive_insight := "No similar historical cases found for prediction"
          confidence := "low" } :=
  ⟨(predictive_no_match_fixed_results (fun _ => "") (fun _ => 0)
      ["EDI message stuck"] "Database outage"
      (fun _ => { predictive_insight := "x", confidence := "high" }) [] []).1 rfl,
   (predictive_no_match_fixed_results (fun _ => "") (fun _ => 0)
      [] "Database outage"
      (fun _ => { predictive_insight := "x", confidence := "high" })
      [["EDI message stuck"]] ["VSL123"]).2.2.1 (List.cons_ne_nil _ _) rfl⟩

/-! ### Sanitation-protocol lemmas (towards C7) -/

/-- Unfolding equation of `removeAll` on a cons cell. -/
theorem removeAll_cons (pat : List Char) (c : Char) (cs : List Char) :
    removeAll pat (c :: cs)
      = if pat ≠ [] ∧ pat <+: (c :: cs) then removeAll pat ((c :: cs).drop pat.length)
        else c :: removeAll pat cs := by
  rw [removeAll]

/-- Evaluation of `removeAll` on the empty list. -/
theorem removeAll_nil (pat : List Char) : removeAll pat [] = [] := by
  rw [removeAll]

/-- A pattern that does not occur is not removed. -/
theorem removeAll_of_no_occurrence {pat : List Char} :
    ∀ {l : List Char}, ¬ pat <:+: l → removeAll pat l = l := by
  intro l
  induction l with
  | nil => intro _; exact removeAll_nil pat
  | cons c cs ih =>
    intro h
    rw [removeAll_cons, if_neg fun hc => h hc.2.isInfix]
    rw [ih fun hc => h (List.infix_cons_iff.mpr (Or.inr hc))]

/-- The fence marker is nonempty. -/
theorem fence_ne_nil : fence ≠ [] := by simp [fence]

/-- Prefix test for the fence against a cons cell. -/
theorem fence_prefix_cons {x : Char} {xs : List Char} :
    fence <+: (x :: xs) ↔ tick = x ∧ [tick, tick] <+: xs := by
  show (tick :: [tick, tick]) <+: (x :: xs) ↔ _
  exact List.cons_prefix_cons

/-- After removing every fence occurrence, no fence remains: the removal
scans left to right, so the character before a removed occurrence is
never a backtick, and no new occurrence can form across a removal
boundary. -/
theorem not_fence_infix_removeAll (l : List Char) :
    ¬ fence <:+: removeAll fence l := by
  have main : ∀ n, ∀ l : List Char, l.length ≤ n → ¬ fence <:+: removeAll fence l := by
    intro n
    induction n with
    | zero =>
      intro l hl
      have hnil : l = [] := List.eq_nil_of_length_eq_zero (Nat.le_zero.mp hl)
      subst hnil
      rw [removeAll_nil]
      simp [List.infix_nil, fence_ne_nil]
    | succ n ih =>
      intro l hl
      match l with
      | [] =>
        rw [removeAll_nil]
        simp [List.infix_nil, fence_ne_nil]
      | c :: cs =>
        have hcs : cs.length ≤ n := by
          simp only [List.length_cons] at hl
          omega
        by_cases hp : fence <+: (c :: cs)
        · rw [removeAll_cons, if_pos ⟨fence_ne_nil, hp⟩]
          apply ih
          have hf : fence.length = 3 := rfl
          simp only [List.length_drop, List.length_cons, hf]
          omega
        · rw [removeAll_cons, if_neg fun hc => hp hc.2]
          intro hinf
          rcases List.infix_cons_iff.mp hinf with hpre | hinf'
          · rcases fence_prefix_cons.mp hpre with ⟨htc, htt⟩
            subst htc
            have hcs2 : ¬ [tick, tick] <+: cs :=
              fun hc => hp (fence_prefix_cons.mpr ⟨rfl, hc⟩)
            rcases cs with _ | ⟨d, ds⟩
            · rw [removeAll_nil] at htt
              simp at htt
            · by_cases hd : d = tick
              · subst hd
                have hds : ¬ [tick] <+: ds :=
                  fun hc => hcs2 (List.cons_prefix_cons.mpr ⟨rfl, hc⟩)
                have hnp2 : ¬ fence <+: (tick :: ds) := by
                  intro hc
                  rcases fence_prefix_cons.mp hc with ⟨_, hc2⟩
                  rcases ds with _ | ⟨e, es⟩
                  · simp at hc2
                  · rcases List.cons_prefix_cons.mp hc2 with ⟨he, _⟩
                    exact hds (List.cons_prefix_cons.mpr ⟨he, List.nil_prefix⟩)
                rw [removeAll_cons, if_neg fun hc => hnp2 hc.2] at htt
                rcases List.cons_prefix_cons.mp htt with ⟨_, htt2⟩
                rcases ds with _ | ⟨e, es⟩
                · rw [removeAll_nil] at htt2
                  simp at htt2
                · have he : e ≠ tick := fun hc =>
                    hds (List.cons_prefix_cons.mpr ⟨hc.symm, List.nil_prefix⟩)
                  have hnp3 : ¬ fence <+: (e :: es) := by
                    intro hc
                    rcases fence_prefix_cons.mp hc with ⟨hc1, _⟩
                    exact he hc1.symm
                  rw [removeAll_cons, if_neg fun hc => hnp3 hc.2] at htt2
                  rcases List.cons_prefix_cons.mp htt2 with ⟨hc1, _⟩
                  exact he hc1.symm
              · have hnp2 : ¬ fence <+: (d :: ds) := by
                  intro hc
                  rcases fence_prefix_cons.mp hc with ⟨hc1, _⟩
                  exact hd hc1.symm
                rw [removeAll_cons, if_neg fun hc => hnp2 hc.2] at htt
                rcases List.cons_prefix_cons.mp htt with ⟨hc1, _⟩
                exact hd hc1.symm
          · exact ih cs hcs hinf'
  exact main l.length l le_rfl

/-- Unfolding equation of `pySplitWs` on a cons cell. -/
theorem pySplitWs_cons (c : Char) (cs : List Char) :
    pySplitWs (c :: cs)
      = if isPySpace c then pySplitWs cs
        else (c :: cs.takeWhile fun d => !isPySpace d)
          :: pySplitWs (cs.dropWhile fun d => !isPySpace d) := by
  rw [pySplitWs]

/-- Unfolding equation of `pySplitWs` on the empty list. -/
theorem pySplitWs_nil : pySplitWs [] = [] := by
  rw [pySplitWs]

/-- Every token of `split()` is nonempty, whitespace-free, and an infix
of the input. -/
theorem pySplitWs_tokens :
    ∀ {l tkn : List Char}, tkn ∈ pySplitWs l →
      tkn ≠ [] ∧ (∀ c ∈ tkn, isPySpace c = false) ∧ tkn <:+: l := by
  have main : ∀ n, ∀ l : List Char, l.length ≤ n → ∀ tkn ∈ pySplitWs l,
      tkn ≠ [] ∧ (∀ c ∈ tkn, isPySpace c = false) ∧ tkn <:+: l := by
    intro n
    induction n with
    | zero =>
      intro l hl tkn htk
      have hnil : l = [] := List.eq_nil_of_length_eq_zero (Nat.le_zero.mp hl)
      subst hnil
      rw [pySplitWs_nil] at htk
      simp at htk
    | succ n ih =>
      intro l hl tkn htk
      match l with
      | [] =>
        rw [pySplitWs_nil] at htk
        simp at htk
      | c :: cs =>
        have hcs : cs.length ≤ n := by
          simp only [List.length_cons] at hl
          omega
        by_cases hc : isPySpace c = true
        · rw [pySplitWs_cons, if_pos hc] at htk
          obtain ⟨h1, h2, h3⟩ := ih cs hcs tkn htk
          exact ⟨h1, h2, List.infix_cons_iff.mpr (Or.inr h3)⟩
        · rw [pySplitWs_cons, if_neg hc] at htk
          rcases List.mem_cons.mp htk with rfl | htk'
          · refine ⟨by simp, ?_, ?_⟩
            · intro x hx
              rcases List.mem_cons.mp hx with rfl | hx'
              · exact Bool.not_eq_true _ ▸ hc
              · have := List.mem_takeWhile_imp hx'
                simpa using this
            · refine (List.cons_prefix_cons.mpr ⟨rfl, ?_⟩).isInfix
              exact List.takeWhile_prefix _
          · have hdl : (cs.dropWhile fun d => !isPySpace d).length ≤ n :=
              le_trans (List.dropWhile_suffix _).length_le hcs
            obtain ⟨h1, h2, h3⟩ := ih _ hdl tkn htk'
            refine ⟨h1, h2, ?_⟩
            exact List.infix_cons_iff.mpr
              (Or.inr (h3.trans (List.dropWhile_suffix _).isInfix))
  intro l tkn htk
  exact main l.length l le_rfl tkn htk

/-- A `takeWhile` passes over a block it fully satisfies. -/
theorem takeWhile_append_all {p : Char → Bool} {a : List Char} (b : List Char)
    (h : ∀ c ∈ a, p c = true) :
    (a ++ b).takeWhile p = a ++ b.takeWhile p := by
  induction a with
  | nil => simp
  | cons x xs ih =>
    have hx : p x = true := h x (List.mem_cons_self _ _)
    simp only [List.cons_append, List.takeWhile_cons, hx, if_true]
    rw [ih fun c hc => h c (List.mem_cons_of_mem _ hc)]

/-- A `dropWhile` drops a block it fully satisfies. -/
theorem dropWhile_append_all {p : Char → Bool} {a : List Char} (b : List Char)
    (h : ∀ c ∈ a, p c = true) :
    (a ++ b).dropWhile p = b.dropWhile p := by
  induction a with
  | nil => simp
  | cons x xs ih =>
    have hx : p x = true := h x (List.mem_cons_self _ _)
    simp only [List.cons_append, List.dropWhile_cons, hx, if_true]
    exact ih fun c hc => h c (List.mem_cons_of_mem _ hc)

/-- Behaviour of `split()` of a single whitespace-free token. -/
theorem pySplitWs_token_only {tkn : List Char} (hne : tkn ≠ [])
    (hws : ∀ c ∈ tkn, isPySpace c = false) :
    pySplitWs tkn = [tkn] := by
  match tkn, hne with
  | c :: t', _ =>
    have hc : isPySpace c = false := hws c (List.mem_cons_self _ _)
    rw [pySplitWs_cons, if_neg (by simp [hc])]
    have ht' : ∀ d ∈ t', (!isPySpace d) = true := by
      intro d hd
      simp [hws d (List.mem_cons_of_mem _ hd)]
    rw [List.takeWhile_eq_self_iff.mpr ht', List.dropWhile_eq_nil_iff.mpr ht',
      pySplitWs_nil]

/-- Behaviour of `split()` of a whitespace-free token followed by a space and a
remainder. -/
theorem pySplitWs_token_space {tkn : List Char} (hne : tkn ≠ [])
    (hws : ∀ c ∈ tkn, isPySpace c = false) (r : List Char) :
    pySplitWs (tkn ++ ' ' :: r) = tkn :: pySplitWs r := by
  match tkn, hne with
  | c :: t', _ =>
    have hc : isPySpace c = false := hws c (List.mem_cons_self _ _)
    rw [List.cons_append, pySplitWs_cons, if_neg (by simp [hc])]
    have ht' : ∀ d ∈ t', (!isPySpace d) = true := by
      intro d hd
      simp [hws d (List.mem_cons_of_mem _ hd)]
    rw [takeWhile_append_all _ ht', dropWhile_append_all _ ht']
    have hsp : isPySpace ' ' = true := rfl
    rw [List.takeWhile_cons, List.dropWhile_cons]
    simp only [hsp, Bool.not_true, if_neg (by simp : ¬ (false = true)), List.append_nil]
    rw [pySplitWs_cons, if_pos hsp]

/-- Unfolding of a two-or-more-token intercalation. -/
theorem intercalate_cons_cons (a b : List Char) (ts : List (List Char)) :
    List.intercalate [' '] (a :: b :: ts) = a ++ ' ' :: List.intercalate [' '] (b :: ts) := by
  simp [List.intercalate, List.intersperse]

/-- A single-token intercalation. -/
theorem intercalate_single (a : List Char) : List.intercalate [' '] [a] = a := by
  simp [List.intercalate]

/-- The `split()` function is a retraction of `' '.join` on nonempty whitespace-free
tokens. -/
theorem pySplitWs_intercalate :
    ∀ {ts : List (List Char)},
      (∀ t ∈ ts, t ≠ [] ∧ ∀ c ∈ t, isPySpace c = false) →
      pySplitWs (List.intercalate [' '] ts) = ts := by
  intro ts
  induction ts with
  | nil =>
    intro _
    simp [List.intercalate, pySplitWs_nil]
  | cons a ts ih =>
    intro h
    rcases ts with _ | ⟨b, ts'⟩
    · rw [intercalate_single]
      exact pySplitWs_token_only (h a (List.mem_cons_self _ _)).1
        (h a (List.mem_cons_self _ _)).2
    · rw [intercalate_cons_cons,
        pySplitWs_token_space (h a (List.mem_cons_self _ _)).1
          (h a (List.mem_cons_self _ _)).2,
        ih fun t ht => h t (List.mem_cons_of_mem _ ht)]

/-- The whitespace collapse is idempotent. -/
theorem collapseWs_idem (l : List Char) : collapseWs (collapseWs l) = collapseWs l := by
  unfold collapseWs
  rw [pySplitWs_intercalate fun t ht =>
    ⟨(pySplitWs_tokens ht).1, (pySplitWs_tokens ht).2.1⟩]

/-- A list whose first and last characters are not whitespace is
unchanged by `strip()`. -/
theorem pyStrip_eq_self {l : List Char}
    (h1 : ∀ c, l.head? = some c → isPySpace c = false)
    (h2 : ∀ c, l.getLast? = some c → isPySpace c = false) :
    pyStrip l = l := by
  have hd : l.dropWhile isPySpace = l := by
    cases l with
    | nil => rfl
    | cons c cs =>
      rw [List.dropWhile_cons, if_neg (by simp [h1 c rfl])]
  have hr : l.reverse.dropWhile isPySpace = l.reverse := by
    cases hrev : l.reverse with
    | nil => rfl
    | cons c cs =>
      have : l.getLast? = some c := by
        rw [← List.head?_reverse, hrev]
        rfl
      rw [List.dropWhile_cons, if_neg (by simp [h2 c this])]
  rw [pyStrip, hd, hr, List.reverse_reverse]

/-- The last character of a token intercalation is the last character of
its last token. -/
theorem getLast?_intercalate_tokens :
    ∀ {ts : List (List Char)}, (∀ t ∈ ts, t ≠ []) → ts ≠ [] →
      ∃ t ∈ ts, (List.intercalate [' '] ts).getLast? = t.getLast? := by
  intro ts
  induction ts with
  | nil => intro _ h; exact absurd rfl h
  | cons a ts ih =>
    intro h _
    rcases ts with _ | ⟨b, ts'⟩
    · exact ⟨a, List.mem_cons_self _ _, by rw [intercalate_single]⟩
    · obtain ⟨t, ht, hlast⟩ := ih (fun t ht => h t (List.mem_cons_of_mem _ ht))
        (List.cons_ne_nil _ _)
      have htne : t ≠ [] := h t (List.mem_cons_of_mem _ ht)
      have hsome : ∃ c, (List.intercalate [' '] (b :: ts')).getLast? = some c := by
        rcases ht' : t.getLast? with _ | c
        · exact absurd (List.getLast?_eq_none_iff.mp ht') htne
        · exact ⟨c, by rw [hlast, ht']⟩
      obtain ⟨c, hc⟩ := hsome
      have hXne : List.intercalate [' '] (b :: ts') ≠ [] := by
        intro hnil
        rw [hnil] at hc
        simp at hc
      refine ⟨t, List.mem_cons_of_mem _ ht, ?_⟩
      rw [intercalate_cons_cons, List.getLast?_append]
      rcases hX : List.intercalate [' '] (b :: ts') with _ | ⟨x, xs⟩
      · exact absurd hX hXne
      · rw [List.getLast?_cons_cons, ← hX, hlast]
        rcases ht' : t.getLast? with _ | c'
        · exact absurd (List.getLast?_eq_none_iff.mp ht') htne
        · simp

/-- The collapse output is unchanged by `strip()`. -/
theorem pyStrip_collapseWs (l : List Char) : pyStrip (collapseWs l) = collapseWs l := by
  apply pyStrip_eq_self
  · intro c hc
    rcases hts : pySplitWs l with _ | ⟨a, ts'⟩
    · rw [collapseWs, hts] at hc
      simp [List.intercalate] at hc
    · have ha := pySplitWs_tokens (hts ▸ List.mem_cons_self a ts')
      rcases haa : a with _ | ⟨x, xs⟩
      · exact absurd haa ha.1
      · have hx : isPySpace x = false := ha.2.1 x (haa ▸ List.mem_cons_self _ _)
        rw [collapseWs, hts] at hc
        rcases ts' with _ | ⟨b, ts''⟩
        · rw [intercalate_single, haa] at hc
          cases hc
          exact hx
        · rw [intercalate_cons_cons, haa] at hc
          simp only [List.cons_append, List.head?_cons] at hc
          cases hc
          exact hx
  · intro c hc
    rcases hts : pySplitWs l with _ | ⟨a, ts'⟩
    · rw [collapseWs, hts] at hc
      simp [List.intercalate] at hc
    · obtain ⟨t, ht, hlast⟩ := @getLast?_intercalate_tokens (a :: ts')
        (fun t ht => (pySplitWs_tokens (hts ▸ ht)).1) (List.cons_ne_nil _ _)
      rw [collapseWs, hts, hlast] at hc
      exact (pySplitWs_tokens (hts ▸ ht)).2.1 c (List.mem_of_mem_getLast? hc)

/-- The `strip()` step returns an infix of its input. -/
theorem pyStrip_infix_input (l : List Char) : pyStrip l <:+: l := by
  have h1 : l.dropWhile isPySpace <:+ l := List.dropWhile_suffix _
  have h2 : (l.dropWhile isPySpace).reverse.dropWhile isPySpace
      <:+ (l.dropWhile isPySpace).reverse := List.dropWhile_suffix _
  have h3 : pyStrip l <+: l.dropWhile isPySpace := by
    rw [pyStrip]
    rw [← List.reverse_suffix]
    simpa using h2
  exact h3.isInfix.trans h1.isInfix

/-- The brace slice returns an infix of its input. -/
theorem sliceBraces_infix_input (l : List Char) : sliceBraces l <:+: l := by
  rw [sliceBraces]
  rcases pyFind lbrace l with _ | i
  · exact List.infix_rfl
  · rcases pyRFind rbrace l with _ | j
    · exact List.infix_rfl
    · by_cases hij : i < j
      · simp only [if_pos hij]
        exact ((List.drop_suffix _ _).isInfix).trans ( List.take_prefix _ _).isInfix
      · simp only [if_neg hij]
        exact List.infix_rfl

/-- A whitespace-free prefix of `x ++ ' ' :: y` is a prefix of `x`. -/
theorem prefix_no_space_left {P : List Char} (hP : ∀ c ∈ P, c ≠ ' ') :
    ∀ {x : List Char} {y : List Char}, P <+: (x ++ ' ' :: y) → P <+: x := by
  induction P with
  | nil => intro x y _; exact List.nil_prefix
  | cons c Ps ih =>
    intro x y h
    match x with
    | [] =>
      rw [List.nil_append] at h
      rcases List.cons_prefix_cons.mp h with ⟨rfl, _⟩
      exact absurd rfl (hP _ (List.mem_cons_self _ _))
    | a :: x' =>
      rw [List.cons_append] at h
      rcases List.cons_prefix_cons.mp h with ⟨rfl, h2⟩
      exact List.cons_prefix_cons.mpr
        ⟨rfl, ih (fun d hd => hP d (List.mem_cons_of_mem _ hd)) h2⟩

/-- A nonempty whitespace-free infix of `x ++ ' ' :: y` lies in `x` or in
`y`. -/
theorem infix_append_space {P : List Char} (hP : ∀ c ∈ P, c ≠ ' ') (hPne : P ≠ []) :
    ∀ {x y : List Char}, P <:+: (x ++ ' ' :: y) → P <:+: x ∨ P <:+: y := by
  intro x
  induction x with
  | nil =>
    intro y h
    rw [List.nil_append] at h
    rcases List.infix_cons_iff.mp h with hpre | hinf
    · match P, hPne with
      | c :: Ps, _ =>
        rcases List.cons_prefix_cons.mp hpre with ⟨rfl, _⟩
        exact absurd rfl (hP _ (List.mem_cons_self _ _))
    · exact Or.inr hinf
  | cons a x' ih =>
    intro y h
    rw [List.cons_append] at h
    rcases List.infix_cons_iff.mp h with hpre | hinf
    · left
      have : P <+: ((a :: x') ++ ' ' :: y) := by simpa using hpre
      exact (prefix_no_space_left hP this).isInfix
    · rcases ih hinf with hx | hy
      · exact Or.inl (List.infix_cons_iff.mpr (Or.inr hx))
      · exact Or.inr hy

/-- A nonempty whitespace-free infix of a token intercalation lies
inside one token. -/
theorem infix_intercalate_tokens {P : List Char} (hP : ∀ c ∈ P, c ≠ ' ')
    (hPne : P ≠ []) :
    ∀ {ts : List (List Char)}, P <:+: List.intercalate [' '] ts →
      ∃ t ∈ ts, P <:+: t := by
  intro ts
  induction ts with
  | nil =>
    intro h
    simp only [List.intercalate, List.intersperse, List.flatten] at h
    exact absurd (List.infix_nil.mp h) hPne
  | cons a ts ih =>
    intro h
    rcases ts with _ | ⟨b, ts'⟩
    · rw [intercalate_single] at h
      exact ⟨a, List.mem_cons_self _ _, h⟩
    · rw [intercalate_cons_cons] at h
      rcases infix_append_space hP hPne h with ha | hX
      · exact ⟨a, List.mem_cons_self _ _, ha⟩
      · obtain ⟨t, ht, hti⟩ := ih hX
        exact ⟨t, List.mem_cons_of_mem _ ht, hti⟩

/-- The whitespace collapse introduces no fence. -/
theorem not_fence_infix_collapseWs {l : List Char} (h : ¬ fence <:+: l) :
    ¬ fence <:+: collapseWs l := by
  intro hc
  have hP : ∀ c ∈ fence, c ≠ ' ' := by decide
  obtain ⟨t, ht, hinf⟩ := infix_intercalate_tokens hP (by decide) hc
  exact h (hinf.trans (pySplitWs_tokens ht).2.2)

/-- A character mapping to a backtick under the newline replacement is a
backtick. -/
theorem mapNewlinesChar_eq_tick {c : Char}
    (h : (if c = '\n' || c = '\r' then ' ' else c) = tick) : c = tick := by
  by_cases hc : (c = '\n' || c = '\r') = true
  · rw [if_pos hc] at h
    exact absurd h (by decide)
  · rwa [if_neg hc] at h

/-- The newline replacement introduces no fence. -/
theorem not_fence_infix_mapNewlines {l : List Char} (h : ¬ fence <:+: l) :
    ¬ fence <:+: mapNewlines l := by
  intro hc
  obtain ⟨s, t, hst⟩ := hc
  rw [mapNewlines] at hst
  have hst' : l.map (fun c => if c = '\n' || c = '\r' then ' ' else c)
      = s ++ (fence ++ t) := by
    rw [← List.append_assoc]
    exact hst.symm
  obtain ⟨l₁, l₂, rfl, hs, h₂⟩ := List.map_eq_append_iff.mp hst'
  obtain ⟨l₃, l₄, rfl, hf, ht⟩ := List.map_eq_append_iff.mp h₂
  have h3 : l₃ = fence := by
    have hlen : l₃.length = 3 := by
      have := congrArg List.length hf
      simpa [fence] using this
    match l₃, hlen with
    | [a, b, c], _ =>
      simp only [List.map_cons, List.map_nil, fence, List.cons.injEq, and_true] at hf
      obtain ⟨ha, hb, hc⟩ := hf
      rw [mapNewlinesChar_eq_tick ha, mapNewlinesChar_eq_tick hb,
        mapNewlinesChar_eq_tick hc]
      rfl
  exact h ⟨l₁, l₄, by rw [h3, List.append_assoc]⟩

/-- Characters of a token intercalation: separators or token
characters. -/
theorem mem_intercalate_tokens {c : Char} :
    ∀ {ts : List (List Char)}, c ∈ List.intercalate [' '] ts →
      c = ' ' ∨ ∃ t ∈ ts, c ∈ t := by
  intro ts
  induction ts with
  | nil =>
    intro h
    simp [List.intercalate, List.intersperse, List.flatten] at h
  | cons a ts ih =>
    intro h
    rcases ts with _ | ⟨b, ts'⟩
    · rw [intercalate_single] at h
      exact Or.inr ⟨a, List.mem_cons_self _ _, h⟩
    · rw [intercalate_cons_cons] at h
      rcases List.mem_append.mp h with ha | hX
      · exact Or.inr ⟨a, List.mem_cons_self _ _, ha⟩
      · rcases List.mem_cons.mp hX with rfl | hX'
        · exact Or.inl rfl
        · rcases ih hX' with hsp | ⟨t, ht, hct⟩
          · exact Or.inl hsp
          · exact Or.inr ⟨t, List.mem_cons_of_mem _ ht, hct⟩

/-- Characters of the collapse output. -/
theorem mem_collapseWs {l : List Char} {c : Char} (hc : c ∈ collapseWs l) :
    c = ' ' ∨ ∃ t ∈ pySplitWs l, c ∈ t :=
  mem_intercalate_tokens hc

/-- The collapse output has no newlines left to replace. -/
theorem mapNewlines_collapseWs (l : List Char) :
    mapNewlines (collapseWs l) = collapseWs l := by
  rw [mapNewlines]
  have h : ∀ c ∈ collapseWs l,
      (if c = '\n' || c = '\r' then ' ' else c) = id c := by
    intro c hc
    rcases mem_collapseWs hc with rfl | ⟨t, ht, hct⟩
    · rfl
    · have hcs := (pySplitWs_tokens ht).2.1 c hct
      have h1 : ¬(c = '\n' || c = '\r') = true := by
        intro hor
        rcases Bool.or_eq_true_iff.mp hor with h' | h' <;>
          · rw [decide_eq_true_eq] at h'
            subst h'
            simp [isPySpace] at hcs
      rw [if_neg h1]
      rfl
  rw [List.map_congr_left h, List.map_id]

/-- The collapse preserves a whitespace-free head character. -/
theorem collapseWs_head {l : List Char} {c : Char} (h : l.head? = some c)
    (hc : isPySpace c = false) : (collapseWs l).head? = some c := by
  match l with
  | [] => simp at h
  | d :: ds =>
    have hd : d = c := by simpa using h
    subst hd
    rw [collapseWs, pySplitWs_cons, if_neg (by simp [hc])]
    rcases pySplitWs (ds.dropWhile fun x => !isPySpace x) with _ | ⟨b, ts'⟩
    · rw [intercalate_single]
      rfl
    · rw [intercalate_cons_cons]
      rfl

/-- The collapse preserves a whitespace-free last character. -/
theorem collapseWs_getLast :
    ∀ {l : List Char} {c : Char}, l.getLast? = some c → isPySpace c = false →
      (collapseWs l).getLast? = some c := by
  have main : ∀ n, ∀ l : List Char, l.length ≤ n → ∀ c : Char, l.getLast? = some c →
      isPySpace c = false → (collapseWs l).getLast? = some c := by
    intro n
    induction n with
    | zero =>
      intro l hl c h hc
      have hnil : l = [] := List.eq_nil_of_length_eq_zero (Nat.le_zero.mp hl)
      subst hnil
      simp at h
    | succ n ih =>
      intro l hl c h hc
      match l with
      | [] => simp at h
      | d :: ds =>
        by_cases hd : isPySpace d = true
        · rcases ds with _ | ⟨e, es⟩
          · have hdc : d = c := by simpa using h
            rw [hdc] at hd
            rw [hd] at hc
            cases hc
          · have hlast : (d :: e :: es).getLast? = (e :: es).getLast? :=
              List.getLast?_cons_cons
            rw [collapseWs, pySplitWs_cons, if_pos hd, ← collapseWs]
            refine ih (e :: es) ?_ c (hlast ▸ h) hc
            simp only [List.length_cons] at hl ⊢
            omega
        · rw [collapseWs, pySplitWs_cons, if_neg hd]
          rcases hdr : ds.dropWhile (fun x => !isPySpace x) with _ | ⟨e, es⟩
          · have htw : ds.takeWhile (fun x => !isPySpace x) = ds := by
              have hx := List.takeWhile_append_dropWhile (fun x => !isPySpace x) ds
              rw [hdr, List.append_nil] at hx
              exact hx
            rw [htw, pySplitWs_nil, intercalate_single]
            exact h
          · have hsplit : d :: ds
                = (d :: ds.takeWhile (fun x => !isPySpace x)) ++ (e :: es) := by
              rw [List.cons_append]
              conv_lhs => rw [← List.takeWhile_append_dropWhile
                (p := fun x => !isPySpace x) (l := ds)]
              rw [hdr]
            have hlast : (d :: ds).getLast? = (e :: es).getLast? := by
              rw [hsplit, List.getLast?_append]
              rcases hg : (e :: es).getLast? with _ | g
              · exact absurd (List.getLast?_eq_none_iff.mp hg) (List.cons_ne_nil _ _)
              · rfl
            have hrec : (collapseWs (e :: es)).getLast? = some c := by
              refine ih (e :: es) ?_ c (hlast ▸ h) hc
              have hsx := (List.dropWhile_suffix
                (l := ds) (p := fun x => !isPySpace x)).length_le
              rw [hdr] at hsx
              simp only [List.length_cons] at hl hsx ⊢
              omega
            rcases hts : pySplitWs (e :: es) with _ | ⟨b, ts'⟩
            · rw [collapseWs, hts] at hrec
              simp [List.intercalate, List.intersperse, List.flatten] at hrec
            · rw [intercalate_cons_cons, List.getLast?_append]
              rw [collapseWs, hts] at hrec
              rcases hX : List.intercalate [' '] (b :: ts') with _ | ⟨x, xs⟩
              · rw [hX] at hrec
                simp at hrec
              · rw [hX] at hrec
                rw [List.getLast?_cons_cons, hrec]
                rfl
  intro l c h hc
  exact main l.length l le_rfl c h hc

/-- The `find` embedding returns an index holding the character. -/
theorem pyFind_eq_some_get {c : Char} :
    ∀ {l : List Char} {i : ℕ}, pyFind c l = some i → l[i]? = some c := by
  intro l
  induction l with
  | nil => intro i h; simp [pyFind] at h
  | cons d ds ih =>
    intro i h
    by_cases hd : d = c
    · rw [pyFind, if_pos hd] at h
      cases h
      simpa using hd
    · rw [pyFind, if_neg hd] at h
      obtain ⟨i', hi', rfl⟩ := Option.map_eq_some'.mp h
      simpa using ih hi'

/-- The `find` embedding returns the least index holding the character. -/
theorem pyFind_le_of_get {c : Char} :
    ∀ {l : List Char} {i : ℕ}, l[i]? = some c → ∃ i₀ ≤ i, pyFind c l = some i₀ := by
  intro l
  induction l with
  | nil => intro i h; simp at h
  | cons d ds ih =>
    intro i h
    by_cases hd : d = c
    · exact ⟨0, Nat.zero_le _, by rw [pyFind, if_pos hd]⟩
    · match i with
      | 0 =>
        have : d = c := by simpa using h
        exact absurd this hd
      | i + 1 =>
        have h' : ds[i]? = some c := by simpa using h
        obtain ⟨i₀, hle, hf⟩ := ih h'
        refine ⟨i₀ + 1, by omega, ?_⟩
        rw [pyFind, if_neg hd, hf]
        rfl

/-- The `rfind` embedding returns an index holding the character. -/
theorem pyRFind_eq_some_get {c : Char} {l : List Char} {i : ℕ}
    (h : pyRFind c l = some i) : l[i]? = some c := by
  rw [pyRFind] at h
  obtain ⟨k, hk, rfl⟩ := Option.map_eq_some'.mp h
  have hg := pyFind_eq_some_get hk
  have hklen : k < l.length := by
    have := (List.getElem?_eq_some.mp hg).1
    simpa using this
  rwa [List.getElem?_reverse hklen] at hg

/-- The `rfind` embedding returns the greatest index holding the character. -/
theorem pyRFind_ge_of_get {c : Char} {l : List Char} {i : ℕ}
    (h : l[i]? = some c) : ∃ j, i ≤ j ∧ pyRFind c l = some j := by
  have hi : i < l.length := (List.getElem?_eq_some.mp h).1
  have hrev : l.reverse[l.length - 1 - i]? = some c := by
    rw [List.getElem?_reverse (by omega)]
    have harith : l.length - 1 - (l.length - 1 - i) = i := by omega
    rw [harith]
    exact h
  obtain ⟨k, hk, hf⟩ := pyFind_le_of_get hrev
  refine ⟨l.length - 1 - k, by omega, ?_⟩
  rw [pyRFind, hf]
  rfl

/-- The slice condition (a left brace strictly before a right brace) is
the sublist test for the brace pair. -/
theorem pair_sublist_iff {l : List Char} :
    List.Sublist [lbrace, rbrace] l
      ↔ ∃ i j : ℕ, i < j ∧ l[i]? = some lbrace ∧ l[j]? = some rbrace := by
  constructor
  · intro h
    induction l with
    | nil => simp at h
    | cons d ds ih =>
      rcases List.sublist_cons_iff.mp h with h' | ⟨r, hr, hrs⟩
      · obtain ⟨i, j, hij, hi, hj⟩ := ih h'
        exact ⟨i + 1, j + 1, by omega, by simpa, by simpa⟩
      · cases hr
        have hmem : rbrace ∈ ds := List.singleton_sublist.mp hrs
        obtain ⟨j, hj⟩ := List.getElem?_of_mem hmem
        exact ⟨0, j + 1, by omega, by simp, by simpa⟩
  · rintro ⟨i, j, hij, hi, hj⟩
    induction l generalizing i j with
    | nil => simp at hi
    | cons d ds ih =>
      match i, j, hij with
      | 0, j' + 1, _ =>
        have hd : d = lbrace := by simpa using hi
        have hj' : ds[j']? = some rbrace := by simpa using hj
        subst hd
        exact List.Sublist.cons₂ _
          (List.singleton_sublist.mpr (List.getElem?_mem hj'))
      | i' + 1, j' + 1, _ =>
        have hi' : ds[i']? = some lbrace := by simpa using hi
        have hj' : ds[j']? = some rbrace := by simpa using hj
        exact (ih i' j' (by omega) hi' hj').cons _

/-- Without a left brace strictly before a right brace, the slice is the
identity. -/
theorem sliceBraces_eq_self_of_not_pair {l : List Char}
    (h : ¬ List.Sublist [lbrace, rbrace] l) : sliceBraces l = l := by
  rcases hf : pyFind lbrace l with _ | i
  · simp [sliceBraces, hf]
  · rcases hg : pyRFind rbrace l with _ | j
    · simp [sliceBraces, hf, hg]
    · simp only [sliceBraces, hf, hg]
      rw [if_neg]
      intro hij
      exact h (pair_sublist_iff.mpr
        ⟨i, j, hij, pyFind_eq_some_get hf, pyRFind_eq_some_get hg⟩)

/-- A list that starts with a left brace and ends with a right brace is
unchanged by the slice. -/
theorem sliceBraces_eq_self_of_ends {l : List Char} (h1 : l.head? = some lbrace)
    (h2 : l.getLast? = some rbrace) : sliceBraces l = l := by
  match l with
  | [] => simp at h1
  | d :: ds =>
    have hd : d = lbrace := by simpa using h1
    subst hd
    have hfind : pyFind lbrace (lbrace :: ds) = some 0 := by
      rw [pyFind, if_pos rfl]
    have hrev : (lbrace :: ds).reverse.head? = some rbrace := by
      rw [List.head?_reverse]
      exact h2
    have hrfind : pyRFind rbrace (lbrace :: ds) = some ((lbrace :: ds).length - 1) := by
      rw [pyRFind]
      rcases hrv : (lbrace :: ds).reverse with _ | ⟨x, xs⟩
      · exact absurd hrv (by simp)
      · have hx : x = rbrace := by
          rw [hrv] at hrev
          simpa using hrev
        subst hx
        rw [pyFind, if_pos rfl]
        simp
    have hlen : 2 ≤ (lbrace :: ds).length := by
      rcases ds with _ | ⟨e, es⟩
      · have : lbrace = rbrace := by simpa using h2
        exact absurd this (by decide)
      · simp
    simp only [sliceBraces, hfind, hrfind]
    rw [if_pos (by omega)]
    have harith : (lbrace :: ds).length - 1 + 1 = (lbrace :: ds).length := by omega
    rw [harith, List.take_length, List.drop_zero]

/-- When the slice applies, its output starts with the first left brace
and ends with the last right brace. -/
theorem sliceBraces_applied {l : List Char} {i j : ℕ} (hij : i < j)
    (hi : pyFind lbrace l = some i) (hj : pyRFind rbrace l = some j) :
    sliceBraces l = (l.take (j + 1)).drop i
    ∧ (sliceBraces l).head? = some lbrace
    ∧ (sliceBraces l).getLast? = some rbrace := by
  have heq : sliceBraces l = (l.take (j + 1)).drop i := by
    simp only [sliceBraces, hi, hj]
    rw [if_pos hij]
  have hjl : j < l.length := (List.getElem?_eq_some.mp (pyRFind_eq_some_get hj)).1
  refine ⟨heq, ?_, ?_⟩
  · rw [heq, List.head?_drop, List.getElem?_take, if_pos (by omega)]
    exact pyFind_eq_some_get hi
  · rw [heq, List.getLast?_drop, if_neg (by rw [List.length_take]; omega),
      List.getLast?_take, if_neg (by omega)]
    have harith : j + 1 - 1 = j := by omega
    rw [harith, pyRFind_eq_some_get hj]
    rfl

/-- The newline replacement commutes with filters that reject spaces and
newlines. -/
theorem filter_mapNewlines (p : Char → Bool) (hp : p ' ' = false)
    (hpn : p '\n' = false) (hpr : p '\r' = false) (l : List Char) :
    (mapNewlines l).filter p = l.filter p := by
  induction l with
  | nil => rfl
  | cons c cs ih =>
    rw [mapNewlines, List.map_cons, ← mapNewlines]
    by_cases hc : (c = '\n' || c = '\r') = true
    · have hpc : p c = false := by
        rcases Bool.or_eq_true_iff.mp hc with h' | h' <;>
          · rw [decide_eq_true_eq] at h'
            subst h'
            assumption
      rw [if_pos hc, List.filter_cons, List.filter_cons, hp, hpc]
      simpa using ih
    · rw [if_neg hc, List.filter_cons, List.filter_cons]
      rcases hpc : p c with _ | _ <;> simp [ih]

/-- A filter rejecting spaces restricted to a token intercalation. -/
theorem filter_intercalate (p : Char → Bool) (hp : p ' ' = false) :
    ∀ ts : List (List Char),
      (List.intercalate [' '] ts).filter p = (ts.map (List.filter p)).flatten := by
  intro ts
  induction ts with
  | nil => simp [List.intercalate, List.intersperse]
  | cons a ts ih =>
    rcases ts with _ | ⟨b, ts'⟩
    · rw [intercalate_single]
      simp
    · rw [intercalate_cons_cons, List.filter_append, List.filter_cons, hp]
      rw [if_neg (by simp : ¬ (false = true))]
      rw [ih]
      simp

/-- A filter rejecting whitespace sees through `split()`. -/
theorem filter_pySplitWs (p : Char → Bool)
    (hp : ∀ c, isPySpace c = true → p c = false) :
    ∀ l : List Char, ((pySplitWs l).map (List.filter p)).flatten = l.filter p := by
  have main : ∀ n, ∀ l : List Char, l.length ≤ n →
      ((pySplitWs l).map (List.filter p)).flatten = l.filter p := by
    intro n
    induction n with
    | zero =>
      intro l hl
      have hnil : l = [] := List.eq_nil_of_length_eq_zero (Nat.le_zero.mp hl)
      subst hnil
      rw [pySplitWs_nil]
      rfl
    | succ n ih =>
      intro l hl
      match l with
      | [] => rw [pySplitWs_nil]; rfl
      | c :: cs =>
        have hcs : cs.length ≤ n := by
          simp only [List.length_cons] at hl
          omega
        by_cases hc : isPySpace c = true
        · rw [pySplitWs_cons, if_pos hc, List.filter_cons, hp c hc]
          simpa using ih cs hcs
        · rw [pySplitWs_cons, if_neg hc, List.map_cons, List.flatten_cons]
          have hdl : (cs.dropWhile fun d => !isPySpace d).length ≤ n :=
            le_trans (List.dropWhile_suffix _).length_le hcs
          rw [ih _ hdl]
          conv_rhs => rw [← List.takeWhile_append_dropWhile
            (p := fun d => !isPySpace d) (l := cs)]
          rw [List.filter_cons, List.filter_cons, List.filter_append]
          rcases hpc : p c with _ | _ <;> simp
  intro l
  exact main l.length l le_rfl

/-- A filter rejecting whitespace is invariant under the collapse. -/
theorem filter_collapseWs (p : Char → Bool)
    (hp : ∀ c, isPySpace c = true → p c = false) (l : List Char) :
    (collapseWs l).filter p = l.filter p := by
  rw [collapseWs, filter_intercalate p (hp ' ' rfl), filter_pySplitWs p hp]

/-- Brace characters are not whitespace-mapped: the brace-pair sublist
test is invariant under newline replacement plus collapse. -/
theorem pair_sublist_collapse_map {u : List Char} :
    List.Sublist [lbrace, rbrace] (collapseWs (mapNewlines u))
      ↔ List.Sublist [lbrace, rbrace] u := by
  have hp : ∀ c, isPySpace c = true →
      (fun c => c = lbrace || c = rbrace : Char → Bool) c = false := by
    intro c hc
    simp only [isPySpace, Bool.or_eq_true_iff, decide_eq_true_eq] at hc
    rcases hc with ((((rfl | rfl) | rfl) | rfl) | rfl) | rfl <;> decide
  have hfilters : (collapseWs (mapNewlines u)).filter
        (fun c => c = lbrace || c = rbrace)
      = u.filter (fun c => c = lbrace || c = rbrace) := by
    rw [filter_collapseWs _ hp, filter_mapNewlines _ (by decide) (by decide) (by decide)]
  have hpair : List.filter (fun c => c = lbrace || c = rbrace) [lbrace, rbrace]
      = [lbrace, rbrace] := by decide
  constructor
  · intro h
    have h1 := h.filter (fun c => c = lbrace || c = rbrace)
    rw [hpair, hfilters] at h1
    exact h1.trans (List.filter_sublist _)
  · intro h
    have h1 := h.filter (fun c => c = lbrace || c = rbrace)
    rw [hpair, ← hfilters] at h1
    exact h1.trans (List.filter_sublist _)

/-- The single composite stability fact: re-slicing the collapse of the
newline-replaced slice output changes nothing. -/
theorem sliceBraces_collapse_stable (w : List Char) :
    sliceBraces (collapseWs (mapNewlines (sliceBraces w)))
      = collapseWs (mapNewlines (sliceBraces w)) := by
  rcases hf : pyFind lbrace w with _ | i
  · have hu2 : sliceBraces w = w := by simp [sliceBraces, hf]
    rw [hu2]
    apply sliceBraces_eq_self_of_not_pair
    intro hc
    obtain ⟨i', j', hij', hi', hj'⟩ := pair_sublist_iff.mp (pair_sublist_collapse_map.mp hc)
    obtain ⟨i₀, _, hf₀⟩ := pyFind_le_of_get hi'
    rw [hf] at hf₀
    simp at hf₀
  · rcases hg : pyRFind rbrace w with _ | j
    · have hu2 : sliceBraces w = w := by simp [sliceBraces, hf, hg]
      rw [hu2]
      apply sliceBraces_eq_self_of_not_pair
      intro hc
      obtain ⟨i', j', hij', hi', hj'⟩ := pair_sublist_iff.mp (pair_sublist_collapse_map.mp hc)
      obtain ⟨j₀, _, hg₀⟩ := pyRFind_ge_of_get hj'
      rw [hg] at hg₀
      simp at hg₀
    · by_cases hij : i < j
      · obtain ⟨-, hh, hl2⟩ := sliceBraces_applied hij hf hg
        have hhm : (mapNewlines (sliceBraces w)).head? = some lbrace := by
          rw [mapNewlines, List.head?_map, hh]
          decide
        have hlm : (mapNewlines (sliceBraces w)).getLast? = some rbrace := by
          rw [mapNewlines, List.getLast?_map, hl2]
          decide
        exact sliceBraces_eq_self_of_ends
          (collapseWs_head hhm (by decide)) (collapseWs_getLast hlm (by decide))
      · have hu2 : sliceBraces w = w := by
          simp only [sliceBraces, hf, hg]
          rw [if_neg hij]
        rw [hu2]
        apply sliceBraces_eq_self_of_not_pair
        intro hc
        obtain ⟨i', j', hij', hi', hj'⟩ := pair_sublist_iff.mp (pair_sublist_collapse_map.mp hc)
        obtain ⟨i₀, hle, hf₀⟩ := pyFind_le_of_get hi'
        obtain ⟨j₀, hge, hg₀⟩ := pyRFind_ge_of_get hj'
        rw [hf] at hf₀
        rw [hg] at hg₀
        have hi0 : i = i₀ := Option.some.inj hf₀
        have hj0 : j = j₀ := Option.some.inj hg₀
        exact hij (by omega)

/-- Any collapse of a newline-replaced fence-free slice output is a
fixed point of the whole sanitation protocol. -/
theorem sanitizeChars_fix {u : List Char} (hF : ¬ fence <:+: u)
    (hsl : sliceBraces (collapseWs (mapNewlines u)) = collapseWs (mapNewlines u)) :
    sanitizeChars (collapseWs (mapNewlines u)) = collapseWs (mapNewlines u) := by
  have hF6 : ¬ fence <:+: collapseWs (mapNewlines u) :=
    not_fence_infix_collapseWs (not_fence_infix_mapNewlines hF)
  have hF7 : ¬ fenceJson <:+: collapseWs (mapNewlines u) := fun hc =>
    hF6 ((by decide : fence <+: fenceJson).isInfix.trans hc)
  show collapseWs (mapNewlines (sliceBraces (pyStrip (removeAll fence
    (removeAll fenceJson (pyStrip (collapseWs (mapNewlines u)))))))) = _
  rw [pyStrip_collapseWs, removeAll_of_no_occurrence hF7, removeAll_of_no_occurrence hF6,
    pyStrip_collapseWs, hsl, mapNewlines_collapseWs, collapseWs_idem]

/-- C7: the response-sanitation protocol is idempotent at the character
level — on every input (already-clean JSON strings in particular) a
second application returns its input unchanged, so parsing after two
applications yields precisely the object parsed after one. -/
theorem sanitation_idempotent (s : String) :
    sanitizeResponse (sanitizeResponse s) = sanitizeResponse s := by
  have h : sanitizeChars (sanitizeChars s.data) = sanitizeChars s.data := by
    have hF4 : ¬ fence <:+:
        sliceBraces (pyStrip (removeAll fence (removeAll fenceJson (pyStrip s.data)))) :=
      fun hc => not_fence_infix_removeAll (removeAll fenceJson (pyStrip s.data))
        ((hc.trans (sliceBraces_infix_input _)).trans (pyStrip_infix_input _))
    exact sanitizeChars_fix hF4
      (sliceBraces_collapse_stable
        (pyStrip (removeAll fence (removeAll fenceJson (pyStrip s.data)))))
  show (⟨sanitizeChars (sanitizeChars s.data)⟩ : String) = ⟨sanitizeChars s.data⟩
  rw [h]

end PSA
